import Mathlib

/-!
Verification of the visor registry library (soundcloud/visor) against its
natural-language specification.

The development shallowly embeds the parts of the Go source needed by the
claims: the coordination-store model (cotterpin: per-file revisioned writes
with compare-and-set), the Instance lifecycle state machine, the port-claim
protocol, the scaling controller, tags/revisions, and the event classifier.

Modelling conventions:
  * Store paths are segment lists (`Path := List String`), mirroring Go
    `path.Join` arguments.
  * File bodies are `Val`: either raw bytes `.str`, a canonical integer
    `.int` (the ASCII-encoded int written by the IntCodec), or structured
    JSON payloads (`.jsonIns`, `.jsonTag`) as written by the JsonCodec.
  * `time.Time` values are modelled as opaque timestamp strings; operations
    that call `time.Now()` take the timestamp as an explicit argument.
  * Go runtime panics from out-of-range slice indexing are modelled as the
    error kind `.oobPanic`, distinguished from ordinary returned errors.
  * Each store mutation appends an `Entry` (revision, value) at the head of
    the file's history; reads at a snapshot revision see the latest entry
    at or below that revision, which models cotterpin snapshots and lets
    compare-and-set (`setCAS`) fail with a revision mismatch exactly when
    the file was modified after the revision the caller holds.
-/

deriving instance DecidableEq for Except

namespace Visor

/-- Termination as serialized with an instance (client, reason, time). -/
structure Termination where
  client : String
  reason : String
  time : String
deriving DecidableEq, Repr

/-- The JSON-serialized form of an Instance, as written to the per-proc
failed/lost/done lookup entries by the JsonCodec. -/
structure InsJson where
  id : Nat
  app : String
  rev : String
  proc : String
  env : String
  ip : String
  port : Int
  telePort : Int
  host : String
  status : String
  restartFail : Int
  restartOOM : Int
  registered : String
  claimed : String
  termination : Termination
deriving DecidableEq, Repr

/-- File bodies stored in the coordination tree. -/
inductive Val where
  | str (s : String)
  | int (n : Int)
  | jsonIns (j : InsJson)
  | jsonTag (name ref registered : String)
deriving DecidableEq, Repr

/-- The raw bytes of a value; structured payloads render to an opaque
marker, which is only ever observed by string reads of files that the
library always writes as strings. -/
def Val.asString : Val → String
  | .str s => s
  | .int n => toString n
  | .jsonIns _ => "<json-instance>"
  | .jsonTag _ _ _ => "<json-tag>"

/-- Error kinds of the visor error taxonomy plus the coordinator-level
errors (revision mismatch, no entity) and the Go runtime panic marker. -/
inductive EKind where
  | conflict
  | unauthorized
  | insClaimed
  | invalidState
  | invalidFile
  | notFound
  | invalidPort
  | invalidShare
  | tagShadowing
  | badProcName
  | invalidArgument
  | revMismatch
  | noEnt
  | oobPanic
  | codec
  | other
deriving DecidableEq, Repr

/-- A visor error: a kind plus the human message built by `errorf`. -/
structure VErr where
  kind : EKind
  msg : String
deriving DecidableEq, Repr

/-- Paths in the coordination tree, as segment lists. -/
abbrev Path := List String

/-- One write in a file's history: the global revision at which it
happened and the value written (`none` records a deletion). -/
structure Entry where
  rev : Nat
  val : Option Val
deriving DecidableEq, Repr

/-- The coordination store: per-path write histories (newest first), the
current global revision, and the `Getuid` counter. -/
structure StoreSt where
  tree : List (Path × List Entry)
  rev : Nat
  uid : Nat
deriving DecidableEq, Repr

/-- History of writes to a path (newest first; empty if never written). -/
def histOf (st : StoreSt) (p : Path) : List Entry :=
  match st.tree.lookup p with
  | some h => h
  | none => []

/-- The latest entry for `p` visible at snapshot revision `snap`. -/
def entryAt (st : StoreSt) (p : Path) (snap : Nat) : Option Entry :=
  (histOf st p).find? (fun e => e.rev ≤ snap)

/-- Read the file `p` at snapshot `snap`: its value and its revision.
`none` when the file does not exist (never written, or deleted). -/
def readAt (st : StoreSt) (p : Path) (snap : Nat) : Option (Val × Nat) :=
  match entryAt st p snap with
  | some ⟨r, some v⟩ => some (v, r)
  | _ => none

/-- Whether the file `p` exists (with a value) at snapshot `snap`. -/
def liveAt (st : StoreSt) (p : Path) (snap : Nat) : Bool :=
  (readAt st p snap).isSome

/-- Revision of the newest write or delete touching `p`; 0 when `p` was
never touched. Compare-and-set checks against this. -/
def modRev (st : StoreSt) (p : Path) : Nat :=
  match histOf st p with
  | [] => 0
  | e :: _ => e.rev

/-- Cons an entry onto the history of `p`, adding `p` to the tree when new. -/
def insertEntry : List (Path × List Entry) → Path → Entry → List (Path × List Entry)
  | [], p, e => [(p, [e])]
  | (q, h) :: t, p, e =>
    if q = p then (q, e :: h) :: t else (q, h) :: insertEntry t p e

/-- Unconditionally record a write (or delete, for `none`) to `p` at a
fresh global revision. -/
def write (st : StoreSt) (p : Path) (v : Option Val) : StoreSt :=
  { tree := insertEntry st.tree p ⟨st.rev + 1, v⟩, rev := st.rev + 1, uid := st.uid }

/-- Compare-and-set `Set`: succeeds iff `p` was not modified after
revision `atRev` (doozer-style conditional write). -/
def setCAS (st : StoreSt) (p : Path) (v : Val) (atRev : Nat) : Except VErr StoreSt :=
  if modRev st p ≤ atRev then .ok (write st p (some v)) else .error ⟨.revMismatch, "rev mismatch"⟩

/-- Delete the single file `p`. Deleting an already-absent path is a
no-op: the source flow Exited-then-Unregister deletes the same lookup
path twice and its test requires both calls to succeed. -/
def delFile (st : StoreSt) (p : Path) : StoreSt :=
  if liveAt st p st.rev then write st p none else st

/-- Recursive delete of the directory (or file) `p`, as performed by
`Dir.Del("/")`: every live path at or under `p` gets a delete entry. -/
def delTree (st : StoreSt) (p : Path) : StoreSt :=
  { tree := st.tree.map (fun qh =>
      if p.isPrefixOf qh.1 ∧ liveAt st qh.1 st.rev then (qh.1, ⟨st.rev + 1, none⟩ :: qh.2) else qh),
    rev := st.rev + 1,
    uid := st.uid }

/-- `Exists` at a snapshot: some live file sits at `p` or under it. -/
def existsAt (st : StoreSt) (p : Path) (snap : Nat) : Bool :=
  st.tree.any (fun qh => p.isPrefixOf qh.1 && liveAt st qh.1 snap)

/-- The name directly below `p` on the way to `q`, when `q` is strictly
under `p`. -/
def childName (p q : Path) : Option String :=
  if p.isPrefixOf q then q.get? p.length else none

/-- `Getdir`: names of the immediate children of `p` that lead to a live
file at `snap`, deduplicated in tree order. -/
def getdir (st : StoreSt) (p : Path) (snap : Nat) : List String :=
  (st.tree.filterMap (fun qh =>
    if liveAt st qh.1 snap then childName p qh.1 else none)).dedup

/-- Well-formedness: every recorded revision is positive and bounded by
the store's current revision. All reachable stores satisfy this. -/
def StoreWF (st : StoreSt) : Prop :=
  ∀ qh ∈ st.tree, ∀ e ∈ qh.2, 0 < e.rev ∧ e.rev ≤ st.rev

instance storeWFDecidable (st : StoreSt) : Decidable (StoreWF st) := by
  unfold StoreWF
  infer_instance

/-! ### Codecs and string helpers -/

/-- Digits-only parse of a character list. -/
def digitsVal : List Char → Option Nat
  | [] => none
  | l => if l.all Char.isDigit then some (l.foldl (fun a c => a * 10 + (c.toNat - 48)) 0) else none

/-- `strconv.Atoi`: optional sign followed by digits. -/
def parseInt (s : String) : Option Int :=
  match s.toList with
  | '-' :: rest => (digitsVal rest).map (fun n => -(n : Int))
  | '+' :: rest => (digitsVal rest).map (fun n => (n : Int))
  | l => (digitsVal l).map (fun n => (n : Int))

/-- `strconv.ParseInt(_, 10, 64)` for instance ids (always non-negative in
the store, since `Getuid` allocates them). -/
def parseId (s : String) : Option Nat :=
  digitsVal s.toList

/-- Split a character list at separator characters (structurally, so that
proofs can evaluate it). -/
def splitCharsAux (sep : Char → Bool) : List Char → List Char → List String
  | [], acc => [String.mk acc.reverse]
  | c :: rest, acc =>
    if sep c then String.mk acc.reverse :: splitCharsAux sep rest []
    else splitCharsAux sep rest (c :: acc)

/-- Split on tab, the cotterpin ListCodec separator; empty bytes decode to
the empty list. -/
def splitTab (s : String) : List String :=
  if s = "" then [] else splitCharsAux (fun c => c = '\t') s.toList []

/-- ListCodec encode: tab-join. -/
def joinTab (l : List String) : String :=
  String.intercalate "\t" l

/-- ListCodec decode of a stored value. -/
def decodeList (v : Val) : List String :=
  splitTab v.asString

/-- IntCodec decode of a stored value. -/
def decodeInt (v : Val) : Option Int :=
  match v with
  | .int n => some n
  | v => parseInt v.asString

/-- ListIntCodec decode: tab-split then `Atoi` each field. -/
def decodeIntList (v : Val) : Option (List Int) :=
  (splitTab v.asString).mapM parseInt

/-- Go slice indexing: `xs[n]`, panicking when out of range. -/
def goIndex (xs : List α) (n : Nat) : Except VErr α :=
  match xs.get? n with
  | some a => .ok a
  | none => .error ⟨.oobPanic, "runtime error: index out of range"⟩

/-- Whitespace-separated fields of a body (Go `strings.Fields`). -/
def wsFields (s : String) : List String :=
  (splitCharsAux (fun c => c = ' ' ∨ c = '\t' ∨ c = '\n' ∨ c = '\r') s.toList []).filter
    (fun f => f ≠ "")

/-! ### Instance data model (instance.go, newest revision) -/

/-- Instance status constants (`InsStatus` is a string in the source). -/
def InsStatusPending : String := "pending"

def InsStatusClaimed : String := "claimed"

def InsStatusRunning : String := "running"

def InsStatusStopping : String := "stopping"

def InsStatusFailed : String := "failed"

def InsStatusExited : String := "exited"

def InsStatusLost : String := "lost"

def InsStatusDone : String := "done"

/-- The in-memory Instance, with `snap` modelling the revision of its
directory handle (`dir`). -/
structure Instance where
  id : Nat
  appName : String
  revisionName : String
  processName : String
  env : String
  ip : String
  port : Int
  telePort : Int
  host : String
  status : String
  restartFail : Int
  restartOOM : Int
  registered : String
  claimed : String
  termination : Termination
  snap : Nat
deriving DecidableEq, Repr

/-- Serialize an Instance to its JSON wire form. -/
def Instance.toJson (i : Instance) : InsJson :=
  ⟨i.id, i.appName, i.revisionName, i.processName, i.env, i.ip, i.port, i.telePort,
    i.host, i.status, i.restartFail, i.restartOOM, i.registered, i.claimed, i.termination⟩

/-- Rebuild an Instance from its JSON wire form at snapshot `snap`. -/
def Instance.ofJson (j : InsJson) (snap : Nat) : Instance :=
  ⟨j.id, j.app, j.rev, j.proc, j.env, j.ip, j.port, j.telePort,
    j.host, j.status, j.restartFail, j.restartOOM, j.registered, j.claimed, j.termination, snap⟩

/-- `/instances/<id>` directory. -/
def instanceDir (id : Nat) : Path := ["instances", toString id]

/-- Instance file paths under `/instances/<id>/`. -/
def Instance.pStart (i : Instance) : Path := instanceDir i.id ++ ["start"]

def Instance.pStatus (i : Instance) : Path := instanceDir i.id ++ ["status"]

def Instance.pStop (i : Instance) : Path := instanceDir i.id ++ ["stop"]

def Instance.pObject (i : Instance) : Path := instanceDir i.id ++ ["object"]

def Instance.pRestarts (i : Instance) : Path := instanceDir i.id ++ ["restarts"]

def Instance.pRegistered (i : Instance) : Path := instanceDir i.id ++ ["registered"]

def Instance.pClaims (i : Instance) (host : String) : Path :=
  instanceDir i.id ++ ["claims", host]

/-- `/apps/<app>/procs/<proc>` directory. -/
def procDir (app proc : String) : Path := ["apps", app, "procs", proc]

/-- Per-proc lookup paths for an instance. -/
def Instance.procDonePath (i : Instance) : Path :=
  procDir i.appName i.processName ++ ["done", toString i.id]

def Instance.procFailedPath (i : Instance) : Path :=
  procDir i.appName i.processName ++ ["failed", toString i.id]

def Instance.procLostPath (i : Instance) : Path :=
  procDir i.appName i.processName ++ ["lost", toString i.id]

def Instance.procInstancesPath (i : Instance) : Path :=
  procDir i.appName i.processName ++ ["instances", i.revisionName, toString i.id]

/-- `procStatusPath`: the lookup entry for a given status. -/
def Instance.procStatusPath (i : Instance) (status : String) : Path :=
  if status = InsStatusDone then i.procDonePath
  else if status = InsStatusFailed then i.procFailedPath
  else if status = InsStatusLost then i.procLostPath
  else i.procInstancesPath

/-! ### Instance operations (instance.go, newest revision) -/

/-- A blank instance value at snapshot `snap` with the given id. -/
def blankIns (id : Nat) (snap : Nat) : Instance :=
  ⟨id, "", "", "", "", "", 0, 0, "", InsStatusPending, 0, 0, "", "", ⟨"", "", ""⟩, snap⟩

/-- `getRestarts`: read the restarts file at the handle's snapshot;
absent file defaults to (0, 0). -/
def getRestarts (st : StoreSt) (i : Instance) : Except VErr (Int × Int) :=
  match readAt st i.pRestarts i.snap with
  | none => .ok (0, 0)
  | some (v, _) =>
    match decodeIntList v with
    | none => .error ⟨.codec, "listint decode failed"⟩
    | some fields => do
      let f ← goIndex fields 0
      let o ← goIndex fields 1
      .ok (f, o)

/-- The part of `getInstance` after the status reconstruction: read the
object file (whose first four fields name app, rev, proc and env), the
restarts, the registered timestamp, and the claim timestamp. -/
def getInstanceRest (st : StoreSt) (snap : Nat) (i3 : Instance) : Except VErr Instance := do
  match readAt st i3.pObject snap with
  | none => .error ⟨.notFound, "object file not found"⟩
  | some (v, _) => do
    let fields := decodeList v
    if fields.length < 3 then
      .error ⟨.invalidFile, "object file has wrong number of fields"⟩
    else do
      let a0 ← goIndex fields 0
      let a1 ← goIndex fields 1
      let a2 ← goIndex fields 2
      let a3 ← goIndex fields 3
      let i4 := { i3 with appName := a0, revisionName := a1, processName := a2, env := a3 }
      let r ← getRestarts st i4
      let i4 := { i4 with restartFail := r.1, restartOOM := r.2 }
      match readAt st i4.pRegistered snap with
      | none => .error ⟨.noEnt, "no entity"⟩
      | some (v, _) => do
        let i5 := { i4 with registered := v.asString }
        match readAt st (i5.pClaims i5.ip) snap with
        | none => .ok i5
        | some (v, _) => .ok { i5 with claimed := v.asString }

/-- `getInstance(id, s)`: rebuild an Instance from storage at snapshot
`snap`, reconstructing the status from the start-list arity, the status
file and the stop file. -/
def getInstance (st : StoreSt) (id : Nat) (snap : Nat) : Except VErr Instance := do
  let i0 := blankIns id snap
  if ¬ existsAt st (instanceDir id) snap then
    .error ⟨.notFound, "instance not found"⟩
  else do
    let i1 ←
      match readAt st i0.pStart snap with
      | none => pure i0
      | some (v, _) =>
        match decodeList v with
        | [] => pure i0
        | [a] => pure { i0 with status := InsStatusClaimed, ip := a }
        | a :: b :: rest => do
          let prt ←
            match parseInt b with
            | some n => pure n
            | none => .error ⟨.invalidPort, "invalid port: " ++ b⟩
          let i := { i0 with status := InsStatusRunning, ip := a, port := prt }
          let i :=
            match rest.get? 0 with
            | some c => { i with host := c }
            | none => i
          match rest.get? 1 with
          | some d =>
            match parseInt d with
            | some n => pure { i with telePort := n }
            | none => .error ⟨.invalidPort, "invalid teleport: " ++ d⟩
          | none => pure i
    let i2 :=
      match readAt st i1.pStatus snap with
      | none => i1
      | some (v, _) => { i1 with status := v.asString }
    let i3 :=
      if i2.status = InsStatusRunning ∧ (readAt st i2.pStop snap).isSome then
        { i2 with status := InsStatusStopping }
      else i2
    getInstanceRest st snap i3

/-- `RegisterInstance`: allocate an id, write object, empty start, the
per-proc lookup entry, and the registered timestamp last. -/
def registerInstance (st : StoreSt) (app rev proc env now : String) :
    Except VErr (StoreSt × Instance) := do
  let id := st.uid + 1
  let st := { st with uid := id }
  let sp := st.rev
  let i : Instance :=
    { blankIns id sp with
        appName := app, revisionName := rev, processName := proc, env := env,
        registered := now }
  let st ← setCAS st i.pObject (.str (joinTab [app, rev, proc, env])) sp
  let st ← setCAS st i.pStart (.str "") sp
  let st ← setCAS st (i.procStatusPath InsStatusRunning) (.str now) sp
  let st ← setCAS st i.pRegistered (.str now) sp
  .ok (st, { i with snap := st.rev })

/-- `getClaimer`: fast-forward, join the handle, and read the first field
of the start file. -/
def getClaimer (st : StoreSt) (i : Instance) : Except VErr (Option String × Instance) :=
  let i := { i with snap := max i.snap st.rev }
  match readAt st i.pStart st.rev with
  | none => .error ⟨.noEnt, "no entity"⟩
  | some (v, _) =>
    match decodeList v with
    | [] => .ok (none, i)
    | c :: _ => .ok (some c, i)

/-- `verifyClaimer`: UNAUTHORIZED unless the start file's first field
equals `host`. -/
def verifyClaimer (st : StoreSt) (i : Instance) (host : String) : Except VErr Instance := do
  let ci ← getClaimer st i
  match ci.1 with
  | none => .error ⟨.unauthorized, "instance is not claimed"⟩
  | some c =>
    if c ≠ host then .error ⟨.unauthorized, "instance has different claimer"⟩
    else .ok ci.2

/-- `IsDone`: the per-proc done lookup entry exists at the current
revision. -/
def isDone (st : StoreSt) (i : Instance) : Bool :=
  existsAt st i.procDonePath st.rev

/-- `Claim(host)`: UNAUTHORIZED when done; INS_CLAIMED when the start
file (read at the handle's snapshot) is non-empty; CAS-write the host
into start, translating a revision mismatch to INS_CLAIMED; then record
the claim timestamp. -/
def instClaim (st : StoreSt) (i : Instance) (host now : String) :
    Except VErr (StoreSt × Instance) :=
  if isDone st i then .error ⟨.unauthorized, "instance is done"⟩
  else
    match readAt st i.pStart i.snap with
    | none => .error ⟨.noEnt, "no entity"⟩
    | some (v, frev) =>
      if (decodeList v).length > 0 then .error ⟨.insClaimed, "already claimed"⟩
      else
        match setCAS st i.pStart (.str host) (max i.snap frev) with
        | .error e =>
          .error (if e.kind = .revMismatch then ⟨.insClaimed, "already claimed"⟩ else e)
        | .ok st1 =>
          match setCAS st1 (i.pClaims host) (.str now) st1.rev with
          | .error e => .error e
          | .ok st2 => .ok (st2, { i with claimed := now, snap := st2.rev })

/-- `Unclaim(host)`: verify the claimer, then reset start to empty. -/
def instUnclaim (st : StoreSt) (i : Instance) (host : String) :
    Except VErr (StoreSt × Instance) := do
  let i ← verifyClaimer st i host
  let st ← setCAS st i.pStart (.str "") i.snap
  .ok (st, { i with snap := st.rev })

/-- `Started(host, hostname, port, telePort)`: no-op when already
running; otherwise verify the claimer and write the four-field start
list. -/
def instStarted (st : StoreSt) (i : Instance) (host hostname : String) (port telePort : Int) :
    Except VErr (StoreSt × Instance) :=
  if i.status = InsStatusRunning then .ok (st, i)
  else do
    let i ← verifyClaimer st i host
    let i := { i with ip := host, port := port, telePort := telePort,
                      host := hostname, status := InsStatusRunning }
    let st ← setCAS st i.pStart
      (.str (joinTab [i.ip, toString i.port, i.host, toString i.telePort])) i.snap
    .ok (st, { i with snap := st.rev })

/-- `updateStatus`: CAS-write the status file at the handle's revision. -/
def updateStatus (st : StoreSt) (i : Instance) (s : String) :
    Except VErr (StoreSt × Instance) := do
  let st ← setCAS st i.pStatus (.str s) i.snap
  .ok (st, { i with status := s, snap := st.rev })

/-- `getSerialisedInstance`: decode the JSON lookup entry for (app, proc,
id) at the given status. -/
def getSerialisedInstance (st : StoreSt) (app proc : String) (id : Nat) (status : String)
    (sp : Nat) : Except VErr Instance :=
  let probe := { blankIns id sp with appName := app, processName := proc }
  match readAt st (probe.procStatusPath status) sp with
  | none => .error ⟨.notFound, "fetching instance failed"⟩
  | some (v, _) =>
    match v with
    | .jsonIns j => .ok (Instance.ofJson j sp)
    | _ => .error ⟨.codec, "json decode failed"⟩

/-- `updateLookup(from, to, client, reason)`: record the caller's
Termination, but when leaving failed/lost take the Termination from the
serialized lookup entry instead; write the JSON entry at the destination
path, then delete the source path. -/
def updateLookup (st : StoreSt) (i : Instance) (src dst client reason now : String) :
    Except VErr (StoreSt × Instance) := do
  let i := { i with termination := ⟨client, reason, now⟩ }
  let sp := st.rev
  let i ←
    if src = InsStatusFailed ∨ src = InsStatusLost then do
      let stored ← getSerialisedInstance st i.appName i.processName i.id src sp
      pure { i with termination := stored.termination }
    else pure i
  let st1 ← setCAS st (i.procStatusPath dst) (.jsonIns i.toJson) sp
  let i := { i with snap := st1.rev }
  .ok (delFile st1 (i.procStatusPath src), i)

/-- `Unregister(client, reason)`: move the lookup entry to done, then
delete the whole `/instances/<id>` subtree. -/
def instUnregister (st : StoreSt) (i : Instance) (client reason now : String) :
    Except VErr StoreSt := do
  let r ← updateLookup st i i.status InsStatusDone client reason now
  .ok (delTree r.1 (instanceDir i.id))

/-- `Failed(host, reason)`: verify the claimer unless pending; CAS the
status file (a racing pending-fail loses with a raw revision mismatch);
move the lookup entry. -/
def instFailed (st : StoreSt) (i : Instance) (host reason now : String) :
    Except VErr (StoreSt × Instance) := do
  let status := i.status
  let i ← if status ≠ InsStatusPending then verifyClaimer st i host else pure i
  let r ← updateStatus st i InsStatusFailed
  updateLookup r.1 r.2 status InsStatusFailed host reason now

/-- `Lost(client, reason)`: set status lost and move the lookup entry. -/
def instLost (st : StoreSt) (i : Instance) (client reason now : String) :
    Except VErr (StoreSt × Instance) := do
  let current := i.status
  let r ← updateStatus st i InsStatusLost
  updateLookup r.1 r.2 current InsStatusLost client reason now

/-- `Exited(host)`: verify the claimer, set status exited, delete the
per-proc instances lookup entry. -/
def instExited (st : StoreSt) (i : Instance) (host : String) :
    Except VErr (StoreSt × Instance) := do
  let i ← verifyClaimer st i host
  let r ← updateStatus st i InsStatusExited
  .ok (delFile r.1 (r.2.procStatusPath InsStatusExited), r.2)

/-- `Stop()`: fast-forward, refetch the instance, require running, then
create the empty stop file. No claimer verification is performed. -/
def instStop (st : StoreSt) (i : Instance) : Except VErr StoreSt := do
  let j ← getInstance st i.id st.rev
  if j.status ≠ InsStatusRunning then .error ⟨.invalidState, "invalid state"⟩
  else setCAS st j.pStop (.str "") j.snap

/-- The body-decoding step of `waitStartPath`: update the instance from a
received start-file body (newest revision, which indexes field 3 under a
length-3 guard). -/
def waitStartBody (i : Instance) (body : Val) (evRev : Nat) : Except VErr Instance := do
  let i := { i with snap := max i.snap evRev }
  let fields := decodeList body
  if fields.length ≥ 3 then do
    let ip ← goIndex fields 0
    let hostname ← goIndex fields 2
    let pstr ← goIndex fields 1
    let prt ←
      match parseInt pstr with
      | some n => pure n
      | none => .error ⟨.codec, "atoi failed"⟩
    let tstr ← goIndex fields 3
    let tp ←
      match parseInt tstr with
      | some n => pure n
      | none => .error ⟨.codec, "atoi failed"⟩
    .ok { i with ip := ip, port := prt, telePort := tp, host := hostname,
                 status := InsStatusRunning }
  else if fields.length > 0 then do
    let c ← goIndex fields 0
    .ok { i with ip := c, status := InsStatusClaimed }
  else .ok i

/-! ### Port claim and proc registration (proc.go) -/

/-- `/next-port`, the fleet-wide monotonic port counter. -/
def nextPortPath : Path := ["next-port"]

/-- `claimNextPort`: read `/next-port` at the current snapshot, CAS it to
the old value plus one, and return the old value; on a revision mismatch
retry (after the source's 100 ms sleep, dropped here) from a fresh
fast-forward. `fuel` bounds the retries for totality. -/
def claimNextPort (st : StoreSt) : Nat → Except VErr (Int × StoreSt)
  | 0 => .error ⟨.other, "retry fuel exhausted"⟩
  | fuel + 1 =>
    match readAt st nextPortPath st.rev with
    | none => .error ⟨.noEnt, "no entity"⟩
    | some (v, frev) =>
      match decodeInt v with
      | none => .error ⟨.codec, "int decode failed"⟩
      | some port =>
        match setCAS st nextPortPath (.int (port + 1)) frev with
        | .ok st1 => .ok (port, st1)
        | .error _ => claimNextPort st fuel

/-- An in-memory Proc after registration. -/
structure ProcM where
  app : String
  name : String
  port : Int
  controlPort : Int
  registered : String
  snap : Nat
deriving DecidableEq, Repr

def procPortPath (app proc : String) : Path := procDir app proc ++ ["port"]

def procControlPortPath (app proc : String) : Path := procDir app proc ++ ["port-control"]

def procRegisteredPath (app proc : String) : Path := procDir app proc ++ ["registered"]

/-- `reProcName`: alphanumeric characters only, non-empty. -/
def validProcName (s : String) : Bool :=
  s ≠ "" && s.toList.all Char.isAlphanum

/-- `Proc.Register`: nonexistence check, name validation, claim the port
and the control port from `/next-port`, write both files, write
`registered` last. -/
def procRegister (st : StoreSt) (app name now : String) (fuel : Nat) :
    Except VErr (ProcM × StoreSt) := do
  let sp := st.rev
  if existsAt st (procDir app name) sp then .error ⟨.conflict, "proc already exists"⟩
  else if ¬ validProcName name then .error ⟨.badProcName, "invalid proc name"⟩
  else do
    let r1 ← claimNextPort st fuel
    let st ← setCAS r1.2 (procPortPath app name) (.int r1.1) sp
    let r2 ← claimNextPort st fuel
    let st ← setCAS r2.2 (procControlPortPath app name) (.int r2.1) sp
    let st ← setCAS st (procRegisteredPath app name) (.str now) sp
    .ok (⟨app, name, r1.1, r2.1, now, st.rev⟩, st)

/-- Sequential composition of successful proc registrations. -/
def registerSeq (now : String) (fuel : Nat) :
    StoreSt → List (String × String) → Except VErr (List ProcM × StoreSt)
  | st, [] => .ok ([], st)
  | st, an :: rest => do
    let r ← procRegister st an.1 an.2 now fuel
    let rs ← registerSeq now fuel r.2 rest
    .ok (r.1 :: rs.1, rs.2)

/-- All ports issued by a sequence of registrations, in issue order. -/
def issuedPorts (ps : List ProcM) : List Int :=
  ps.flatMap (fun p => [p.port, p.controlPort])

/-! ### Revisions and tags (part_006 and the revision module) -/

def revDir (app ref : String) : Path := ["apps", app, "revs", ref]

def archiveURLPath (app ref : String) : Path := revDir app ref ++ ["archive-url"]

def revRegisteredPath (app ref : String) : Path := revDir app ref ++ ["registered"]

def tagPath (app name : String) : Path := ["apps", app, "tags", name]

/-- An in-memory Revision. -/
structure RevM where
  app : String
  ref : String
  archiveURL : String
  registered : String
deriving DecidableEq, Repr

/-- An in-memory Tag. -/
structure TagM where
  app : String
  name : String
  ref : String
  registered : String
deriving DecidableEq, Repr

/-- `getRevision`: read archive-url (distinguishing a missing revision
from a missing archive-url in the NOT_FOUND message) then registered. -/
def getRevision (st : StoreSt) (app ref : String) (sp : Nat) : Except VErr RevM :=
  match readAt st (archiveURLPath app ref) sp with
  | none =>
    if existsAt st (revDir app ref) sp then
      .error ⟨.notFound, "archive-url not found for " ++ app ++ ":" ++ ref⟩
    else
      .error ⟨.notFound, "revision " ++ ref ++ " not found for app " ++ app⟩
  | some (v, _) =>
    match readAt st (revRegisteredPath app ref) sp with
    | none => .error ⟨.notFound, "registered not found for " ++ app ++ ":" ++ ref⟩
    | some (w, _) => .ok ⟨app, ref, v.asString, w.asString⟩

/-- `getTag`: JSON-decode the tag file. -/
def getTag (st : StoreSt) (app name : String) (sp : Nat) : Except VErr TagM :=
  match readAt st (tagPath app name) sp with
  | none => .error ⟨.notFound, "tag " ++ name ++ " not found"⟩
  | some (v, _) =>
    match v with
    | .jsonTag n r reg => .ok ⟨app, n, r, reg⟩
    | _ => .error ⟨.codec, "json decode failed"⟩

/-- `Getdir` that errors with `noEnt` on a missing directory, as the
coordinator does. -/
def getdirE (st : StoreSt) (p : Path) (snap : Nat) : Except VErr (List String) :=
  if existsAt st p snap then .ok (getdir st p snap) else .error ⟨.noEnt, "no entity"⟩

/-- `App.GetRevisions`: enumerate the revs directory and materialize each
revision (the source's parallel fan-out is modelled in directory order). -/
def getRevisions (st : StoreSt) (app : String) : Except VErr (List RevM) := do
  let sp := st.rev
  let names ← getdirE st ["apps", app, "revs"] sp
  names.mapM (fun ref => getRevision st app ref sp)

/-- The revision scan inside `Tag.Register`: TAG_SHADOWING at the first
revision whose ref equals the tag name; otherwise remember whether the
target ref was seen. -/
def tagScan (name ref : String) (found : Bool) : List RevM → Except VErr Bool
  | [] => .ok found
  | r :: rest =>
    if r.ref = name then
      .error ⟨.tagShadowing, "revision already exists with tag name " ++ name⟩
    else tagScan name ref (found || r.ref == ref) rest

/-- `Tag.Register`: scan the app's revisions, then NOT_FOUND when the
target ref is unknown, else (over)write the tag file at the tag handle's
snapshot `fsnap`. -/
def tagRegister (st : StoreSt) (app name ref now : String) (fsnap : Nat) :
    Except VErr StoreSt := do
  let revs ← getRevisions st app
  let found ← tagScan name ref false revs
  if ¬ found then
    .error ⟨.notFound, "revision " ++ ref ++ " not found for app " ++ app⟩
  else
    setCAS st (tagPath app name) (.jsonTag name ref now) fsnap

/-- `App.LookupRevision`: revision by ref first, then tag, then revision
by the tag's ref; when neither resolves, the original revision NOT_FOUND
is returned. -/
def lookupRevision (st : StoreSt) (app ref : String) : Except VErr RevM :=
  let sp := st.rev
  match getRevision st app ref sp with
  | .ok rev => .ok rev
  | .error rerr =>
    if rerr.kind ≠ .notFound ∧ rerr.kind ≠ .noEnt then .error rerr
    else
      match getTag st app ref sp with
      | .error terr =>
        if terr.kind ≠ .notFound ∧ terr.kind ≠ .noEnt then .error terr
        else .error rerr
      | .ok tag => getRevision st app tag.ref sp

/-! ### Scaling (Store.Scale) -/

/-- `validateInput`: non-empty, alphanumeric plus `-` and `.`. -/
def validateInput (s : String) : Except VErr Unit :=
  if s.length < 1 then .error ⟨.invalidArgument, "input cant be zero length"⟩
  else if ¬ s.toList.all (fun c => c.isAlphanum ∨ c = '-' ∨ c = '.') then
    .error ⟨.invalidArgument, "input only allows alphanumeric characters and -"⟩
  else .ok ()

/-- The environments directory segment (`envsPath`); its defining
revision of app.go is not under src/, the segment value is opaque to
every claim. -/
def envsPath : String := "envs"

/-- `getInstanceIds`: ids under the per-proc per-rev lookup directory,
numerically sorted; empty when the directory does not exist. -/
def getInstanceIds (st : StoreSt) (app rev proc : String) (snap : Nat) :
    Except VErr (List Nat) := do
  let p := procDir app proc ++ ["instances", rev]
  if ¬ existsAt st p snap then .ok []
  else do
    let ids ← (getdir st p snap).mapM (fun n =>
      match parseId n with
      | some id => Except.ok id
      | none => Except.error (⟨.codec, "parse instance id failed"⟩ : VErr))
    .ok (List.insertionSort (· ≤ ·) ids)

/-- The enumeration step of `Scale`: materialize the sorted ids and keep
the instances of the wanted env. -/
def scaleEnum (st : StoreSt) (app rev proc env : String) (sp : Nat) :
    Except VErr (List Instance) := do
  let ids ← getInstanceIds st app rev proc sp
  let is ← ids.mapM (fun id => getInstance st id sp)
  .ok (is.filter (fun i => i.env = env))

/-- The scale-up loop: `n` calls to `RegisterInstance`, collecting the
tickets. -/
def scaleUp (app rev proc env now : String) : Nat → StoreSt → Except VErr (List Instance × StoreSt)
  | 0, st => .ok ([], st)
  | n + 1, st => do
    let r ← registerInstance st app rev proc env now
    let rs ← scaleUp app rev proc env now n r.1
    .ok (r.2 :: rs.1, rs.2)

/-- The scale-down loop: `Stop` each instance, translating
`ErrInvalidState` to INVALID_STATE naming the instance id. -/
def scaleDown : StoreSt → List Instance → Except VErr (List Instance × StoreSt)
  | st, [] => .ok ([], st)
  | st, i :: rest =>
    match instStop st i with
    | .error e =>
      .error (if e.kind = .invalidState then
        ⟨.invalidState, "instance " ++ toString i.id ++ " is not running"⟩ else e)
    | .ok st' => do
      let rs ← scaleDown st' rest
      .ok (i :: rs.1, rs.2)

/-- `Store.Scale(app, rev, proc, env, factor)`. -/
def scale (st : StoreSt) (app rev proc env : String) (factor : Int) (now : String) :
    Except VErr (List Instance × Nat × StoreSt) := do
  let _ ← validateInput app
  let _ ← validateInput rev
  let _ ← validateInput proc
  let _ ← validateInput env
  if factor < 0 then .error ⟨.other, "scaling factor needs to be a positive integer"⟩
  else do
    let sp := st.rev
    if ¬ existsAt st (revDir app rev) sp then
      .error ⟨.notFound, "rev not found for app"⟩
    else if ¬ existsAt st (procDir app proc) sp then
      .error ⟨.notFound, "proc not found"⟩
    else if ¬ existsAt st ["apps", app, envsPath, env] sp then
      .error ⟨.notFound, "env not found"⟩
    else do
      let is ← scaleEnum st app rev proc env sp
      let current := is.length
      if factor > (current : Int) then do
        let r ← scaleUp app rev proc env now (factor - current).toNat st
        .ok (r.1, current, r.2)
      else if factor < (current : Int) then do
        let r ← scaleDown st (is.take (current - factor.toNat))
        .ok (r.1, current, r.2)
      else .ok ([], current, st)

/-! ### Event classification -/

/-- Domain event types. -/
inductive EvType where
  | appReg
  | appUnreg
  | revReg
  | revUnreg
  | procReg
  | procUnreg
  | procAttrs
  | insReg
  | insUnreg
  | insStart
  | insUnclaim
  | insStop
  | insFail
  | insExit
  | insLost
  | unknown
deriving DecidableEq, Repr

/-- The `[-0-9]+` id segment of the instance path patterns. -/
def isIdSeg (s : String) : Bool :=
  s ≠ "" && s.toList.all (fun c => c.isDigit ∨ c = '-')

/-- A raw coordinator change delivered by the wildcard watch. -/
structure RawEvent where
  path : Path
  body : String
  isSet : Bool
  existedBefore : Bool
deriving DecidableEq, Repr

/-- Modelled from the spec: the newest revision of the event classifier
`newEvent` is not under src/ (only tests referencing `EvInsUnclaim` and a
`WatchInstanceStart` caller are), so the instance-start classification
follows §4.7: a start Set whose body has more than one
whitespace-separated field is `InsStart`; an empty body is `InsUnclaim`
exactly when the path existed at the previous revision, otherwise the
event is ignored. The remaining categories follow the in-src classifier. -/
def newEventSpec (ev : RawEvent) : EvType :=
  match ev.path with
  | ["apps", _a, "registered"] => if ev.isSet then .appReg else .appUnreg
  | ["apps", _a, "revs", _r, "registered"] => if ev.isSet then .revReg else .revUnreg
  | ["apps", _a, "procs", _p, "registered"] => if ev.isSet then .procReg else .procUnreg
  | ["apps", _a, "procs", _p, "attrs"] => if ev.isSet then .procAttrs else .unknown
  | ["instances", id, "registered"] =>
    if isIdSeg id then (if ev.isSet then .insReg else .insUnreg) else .unknown
  | ["instances", id, "start"] =>
    if isIdSeg id ∧ ev.isSet then
      if (wsFields ev.body).length > 1 then .insStart
      else if ev.body = "" then (if ev.existedBefore then .insUnclaim else .unknown)
      else .unknown
    else .unknown
  | ["instances", id, "stop"] =>
    if isIdSeg id ∧ ev.isSet then .insStop else .unknown
  | ["instances", id, "status"] =>
    if isIdSeg id ∧ ev.isSet then
      if ev.body = InsStatusRunning then .insStart
      else if ev.body = InsStatusExited then .insExit
      else if ev.body = InsStatusFailed then .insFail
      else if ev.body = InsStatusLost then .insLost
      else .unknown
    else .unknown
  | _ => .unknown

/-! ### Specification-side observations -/

/-- The status reconstruction described by the spec: the start-list arity
selects pending/claimed/running, the status file overrides when present,
and a running result with a stop file present reports stopping. -/
def statusSpec (st : StoreSt) (id : Nat) (snap : Nat) : String :=
  let base :=
    match readAt st (instanceDir id ++ ["start"]) snap with
    | none => InsStatusPending
    | some (v, _) =>
      match decodeList v with
      | [] => InsStatusPending
      | [_] => InsStatusClaimed
      | _ => InsStatusRunning
  let over :=
    match readAt st (instanceDir id ++ ["status"]) snap with
    | none => base
    | some (v, _) => v.asString
  if over = InsStatusRunning ∧ (readAt st (instanceDir id ++ ["stop"]) snap).isSome then
    InsStatusStopping
  else over

/-- Observation: the host recorded in the start file's first field at the
current revision. -/
def claimerOf (st : StoreSt) (i : Instance) : Option String :=
  match readAt st i.pStart st.rev with
  | none => none
  | some (v, _) =>
    match decodeList v with
    | [] => none
    | c :: _ => some c

/-- Number of successful claims when the given hosts each try to claim
through the same instance handle `i`, sequentially against the evolving
store (failed claims leave the store unchanged). -/
def claimCount (i : Instance) (now : String) : StoreSt → List String → Nat
  | _, [] => 0
  | st, h :: hs =>
    match instClaim st i h now with
    | .ok (st', _) => 1 + claimCount i now st' hs
    | .error _ => claimCount i now st hs

/-! ### Store lemmas -/

theorem lookup_mem {t : List (Path × List Entry)} {p : Path} {h : List Entry}
    (hl : t.lookup p = some h) : (p, h) ∈ t := by
  induction t with
  | nil => simp [List.lookup] at hl
  | cons hd tl ih =>
    rw [List.lookup] at hl
    by_cases hk : p = hd.1
    · simp [hk] at hl
      have : (p, h) = hd := by cases hd; simp_all
      rw [this]; exact List.mem_cons_self _ _
    · have : (p == hd.1) = false := by simp [hk]
      rw [this] at hl
      exact List.mem_cons_of_mem _ (ih hl)

theorem insertEntry_lookup_self (t : List (Path × List Entry)) (p : Path) (e : Entry) :
    (insertEntry t p e).lookup p =
      some (e :: (match t.lookup p with | some h => h | none => [])) := by
  induction t with
  | nil => simp [insertEntry, List.lookup]
  | cons hd tl ih =>
    by_cases hk : hd.1 = p
    · cases hd with
      | mk q h => simp_all [insertEntry, List.lookup]
    · cases hd with
      | mk q h =>
        simp only at hk
        have hne : (p == q) = false := by simp [Ne.symm hk]
        simp [insertEntry, hk, List.lookup, hne, ih]

theorem insertEntry_lookup_ne {q p : Path} (t : List (Path × List Entry)) (e : Entry)
    (hq : q ≠ p) : (insertEntry t p e).lookup q = t.lookup q := by
  induction t with
  | nil =>
    have : (q == p) = false := by simp [hq]
    simp [insertEntry, List.lookup, this]
  | cons hd tl ih =>
    by_cases hk : hd.1 = p
    · cases hd with
      | mk q0 h =>
        simp only at hk
        subst hk
        have : (q == q0) = false := by simp [hq]
        simp [insertEntry, List.lookup, this]
    · cases hd with
      | mk q0 h => simp [insertEntry, hk, List.lookup, ih]

theorem histOf_write_self (st : StoreSt) (p : Path) (v : Option Val) :
    histOf (write st p v) p = ⟨st.rev + 1, v⟩ :: histOf st p := by
  simp only [histOf, write, insertEntry_lookup_self]

theorem histOf_write_ne {st : StoreSt} {q p : Path} (v : Option Val) (hq : q ≠ p) :
    histOf (write st p v) q = histOf st q := by
  simp only [histOf, write, insertEntry_lookup_ne _ _ hq]

theorem modRev_write_self (st : StoreSt) (p : Path) (v : Option Val) :
    modRev (write st p v) p = st.rev + 1 := by
  simp [modRev, histOf_write_self]

theorem modRev_write_ne {st : StoreSt} {q p : Path} (v : Option Val) (hq : q ≠ p) :
    modRev (write st p v) q = modRev st q := by
  simp [modRev, histOf_write_ne v hq]

theorem readAt_write_ne {st : StoreSt} {q p : Path} (v : Option Val) (snap : Nat)
    (hq : q ≠ p) : readAt (write st p v) q snap = readAt st q snap := by
  simp [readAt, entryAt, histOf_write_ne v hq]

theorem readAt_write_self_new (st : StoreSt) (p : Path) (v : Option Val) {snap : Nat}
    (hs : st.rev + 1 ≤ snap) :
    readAt (write st p v) p snap =
      match v with
      | some v => some (v, st.rev + 1)
      | none => none := by
  have : decide (st.rev + 1 ≤ snap) = true := by simpa using hs
  cases v <;> simp [readAt, entryAt, histOf_write_self, List.find?, this]

theorem readAt_write_self_old (st : StoreSt) (p : Path) (v : Option Val) {snap : Nat}
    (hs : snap < st.rev + 1) :
    readAt (write st p v) p snap = readAt st p snap := by
  have : decide ((⟨st.rev + 1, v⟩ : Entry).rev ≤ snap) = false := by
    simp [Nat.not_le_of_lt hs]
  simp [readAt, entryAt, histOf_write_self, List.find?, this]

theorem liveAt_write_ne {st : StoreSt} {q p : Path} (v : Option Val) (snap : Nat)
    (hq : q ≠ p) : liveAt (write st p v) q snap = liveAt st q snap := by
  simp [liveAt, readAt_write_ne v snap hq]

/-- A member of an entry history is bounded by well-formedness. -/
theorem StoreWF.hist_le {st : StoreSt} (hwf : StoreWF st) {p : Path} {e : Entry}
    (he : e ∈ histOf st p) : 0 < e.rev ∧ e.rev ≤ st.rev := by
  unfold histOf at he
  cases hl : st.tree.lookup p with
  | none => rw [hl] at he; simp at he
  | some h =>
    rw [hl] at he
    exact hwf (p, h) (lookup_mem hl) e he

theorem StoreWF.modRev_le {st : StoreSt} (hwf : StoreWF st) (p : Path) :
    modRev st p ≤ st.rev := by
  unfold modRev
  cases hh : histOf st p with
  | nil => exact Nat.zero_le _
  | cons e rest =>
    have : e ∈ histOf st p := by rw [hh]; exact List.mem_cons_self _ _
    exact (hwf.hist_le this).2

/-- `find?` returns the head when the predicate holds on every element. -/
theorem find?_eq_head_of_all {l : List α} {p : α → Bool} (h : ∀ x ∈ l, p x = true) :
    l.find? p = l.head? := by
  cases l with
  | nil => rfl
  | cons a rest => simp [List.find?, h a (List.mem_cons_self _ _)]

/-- Reads at or beyond the current revision agree with reads at the
current revision (well-formed stores). -/
theorem StoreWF.readAt_stable {st : StoreSt} (hwf : StoreWF st) (p : Path) {snap : Nat}
    (hs : st.rev ≤ snap) : readAt st p snap = readAt st p st.rev := by
  unfold readAt entryAt
  have h1 : (histOf st p).find? (fun e => e.rev ≤ snap) = (histOf st p).head? :=
    find?_eq_head_of_all (fun e he => by
      simp [Nat.le_trans (hwf.hist_le he).2 hs])
  have h2 : (histOf st p).find? (fun e => e.rev ≤ st.rev) = (histOf st p).head? :=
    find?_eq_head_of_all (fun e he => by simp [(hwf.hist_le he).2])
  rw [h1, h2]

theorem StoreWF.liveAt_stable {st : StoreSt} (hwf : StoreWF st) (p : Path) {snap : Nat}
    (hs : st.rev ≤ snap) : liveAt st p snap = liveAt st p st.rev := by
  simp [liveAt, hwf.readAt_stable p hs]

theorem insertEntry_entry_cases {t : List (Path × List Entry)} {p : Path} {e : Entry}
    {qh : Path × List Entry} {x : Entry} (hmem : qh ∈ insertEntry t p e) (hx : x ∈ qh.2) :
    x = e ∨ ∃ qh' ∈ t, x ∈ qh'.2 := by
  induction t with
  | nil =>
    simp [insertEntry] at hmem
    subst hmem
    simp at hx
    exact Or.inl hx
  | cons hd tl ih =>
    by_cases hk : hd.1 = p
    · cases hd with
      | mk q h =>
        simp only at hk
        subst hk
        simp [insertEntry] at hmem
        rcases hmem with hmem | hmem
        · subst hmem
          simp at hx
          rcases hx with hx | hx
          · exact Or.inl hx
          · exact Or.inr ⟨(q, h), List.mem_cons_self _ _, hx⟩
        · exact Or.inr ⟨qh, List.mem_cons_of_mem _ hmem, hx⟩
    · cases hd with
      | mk q h =>
        simp only at hk
        simp [insertEntry, hk] at hmem
        rcases hmem with hmem | hmem
        · subst hmem
          exact Or.inr ⟨(q, h), List.mem_cons_self _ _, hx⟩
        · rcases ih hmem with h1 | ⟨qh', hq', hx'⟩
          · exact Or.inl h1
          · exact Or.inr ⟨qh', List.mem_cons_of_mem _ hq', hx'⟩

theorem StoreWF.write {st : StoreSt} (hwf : StoreWF st) (p : Path) (v : Option Val) :
    StoreWF (write st p v) := by
  intro qh hmem x hx
  rcases insertEntry_entry_cases hmem hx with h1 | ⟨qh', hq', hx'⟩
  · subst h1
    exact ⟨Nat.succ_pos _, Nat.le_refl _⟩
  · have := hwf qh' hq' x hx'
    exact ⟨this.1, Nat.le_succ_of_le this.2⟩

theorem StoreWF.delFile {st : StoreSt} (hwf : StoreWF st) (p : Path) :
    StoreWF (delFile st p) := by
  by_cases h : liveAt st p st.rev = true
  · simpa [Visor.delFile, h] using hwf.write p none
  · simpa [Visor.delFile, h] using hwf

theorem StoreWF.delTree {st : StoreSt} (hwf : StoreWF st) (p : Path) :
    StoreWF (delTree st p) := by
  intro qh hmem x hx
  simp only [Visor.delTree, List.mem_map] at hmem
  rcases hmem with ⟨qh0, hq0, heq⟩
  by_cases hc : p.isPrefixOf qh0.1 ∧ liveAt st qh0.1 st.rev
  · rw [if_pos hc] at heq
    subst heq
    rcases List.mem_cons.mp (by simpa using hx) with h1 | h1
    · subst h1; exact ⟨Nat.succ_pos _, Nat.le_refl _⟩
    · have := hwf qh0 hq0 x h1
      exact ⟨this.1, Nat.le_succ_of_le this.2⟩
  · rw [if_neg hc] at heq
    subst heq
    have := hwf qh0 hq0 x hx
    exact ⟨this.1, Nat.le_succ_of_le this.2⟩

/-- Characterization of `existsAt` as an existential over live paths. -/
theorem existsAt_iff {st : StoreSt} {d : Path} {snap : Nat} :
    existsAt st d snap = true ↔ ∃ q, d.isPrefixOf q = true ∧ liveAt st q snap = true := by
  constructor
  · intro h
    rcases List.any_eq_true.mp h with ⟨qh, hmem, hpred⟩
    have hp : d.isPrefixOf qh.1 = true ∧ liveAt st qh.1 snap = true := by simpa using hpred
    exact ⟨qh.1, hp.1, hp.2⟩
  · rintro ⟨q, hpre, hlive⟩
    apply List.any_eq_true.mpr
    have hne : histOf st q ≠ [] := by
      intro hemp
      simp [liveAt, readAt, entryAt, hemp] at hlive
    have : ∃ h, st.tree.lookup q = some h := by
      unfold histOf at hne
      cases hl : st.tree.lookup q with
      | none => rw [hl] at hne; simp at hne
      | some h => exact ⟨h, rfl⟩
    rcases this with ⟨h, hl⟩
    exact ⟨(q, h), lookup_mem hl, by simp [hpre, hlive]⟩

/-- Frame: a write to a path not under `d` does not change whether `d`
exists, also across the revision bump. -/
theorem existsAt_write_frame {st : StoreSt} (hwf : StoreWF st) {d p : Path}
    (hnp : d.isPrefixOf p = false) (v : Option Val) :
    existsAt (write st p v) d (st.rev + 1) = existsAt st d st.rev := by
  cases hcur : existsAt st d st.rev with
  | true =>
    rcases existsAt_iff.mp hcur with ⟨q, hpre, hlive⟩
    apply existsAt_iff.mpr
    have hqp : q ≠ p := by
      intro he; subst he; rw [hpre] at hnp; exact Bool.noConfusion hnp
    refine ⟨q, hpre, ?_⟩
    rw [liveAt_write_ne v _ hqp]
    have hst : liveAt st q (st.rev + 1) = liveAt st q st.rev :=
      hwf.liveAt_stable q (Nat.le_succ _)
    rw [hst, hlive]
  | false =>
    apply Bool.eq_false_iff.mpr
    intro h'
    rcases existsAt_iff.mp h' with ⟨q, hpre, hlive⟩
    have hqp : q ≠ p := by
      intro he; subst he; rw [hpre] at hnp; exact Bool.noConfusion hnp
    rw [liveAt_write_ne v _ hqp, hwf.liveAt_stable q (Nat.le_succ _)] at hlive
    have : existsAt st d st.rev = true := existsAt_iff.mpr ⟨q, hpre, hlive⟩
    rw [hcur] at this
    exact Bool.noConfusion this

theorem isPrefixOf_cons_false {a b : String} {r s : List String} (h : a ≠ b) :
    List.isPrefixOf (a :: r) (b :: s) = false := by
  simp [List.isPrefixOf, h]

theorem cons_append_ne {l : List String} {a b : String} {r s : List String} (h : a ≠ b) :
    l ++ (a :: r) ≠ l ++ (b :: s) := by
  intro he
  have h2 := List.append_cancel_left he
  injection h2 with h3
  exact h h3

theorem lookup_map_entry (t : List (Path × List Entry)) (q : Path)
    (f : Path × List Entry → Path × List Entry)
    (hk : ∀ qh, (f qh).1 = qh.1) (hq : ∀ qh, qh.1 = q → f qh = qh) :
    (t.map f).lookup q = t.lookup q := by
  induction t with
  | nil => rfl
  | cons hd tl ih =>
    rw [List.map_cons, List.lookup, List.lookup, hk hd]
    by_cases he : q = hd.1
    · have : (q == hd.1) = true := by simp [he]
      rw [this]
      simp only [cond_true]
      rw [hq hd he.symm]
    · have : (q == hd.1) = false := by simp [he]
      rw [this]
      simp only [cond_false]
      exact ih

/-- Frame: a recursive delete of the subtree at `p` leaves the history of
any path not under `p` unchanged. -/
theorem histOf_delTree_ne {st : StoreSt} {q p : Path} (hq : p.isPrefixOf q = false) :
    histOf (delTree st p) q = histOf st q := by
  unfold histOf Visor.delTree
  simp only
  rw [lookup_map_entry]
  · intro qh
    by_cases hc : p.isPrefixOf qh.1 ∧ liveAt st qh.1 st.rev
    · rw [if_pos hc]
    · rw [if_neg hc]
  · intro qh hqe
    rw [if_neg]
    intro hc
    rw [hqe, hq] at hc
    exact Bool.noConfusion hc.1

/-- Reading at a snapshot at or above the head entry's revision returns
the head entry. -/
theorem readAt_head {st : StoreSt} {p : Path} {e : Entry} {t : List Entry} {snap : Nat}
    (hh : histOf st p = e :: t) (hs : e.rev ≤ snap) :
    readAt st p snap = match e.val with | some v => some (v, e.rev) | none => none := by
  obtain ⟨er, ev⟩ := e
  have hd : decide (er ≤ snap) = true := by simpa using hs
  cases ev <;> simp [readAt, entryAt, hh, List.find?, hd]

/-! ### Claim theorems -/

/-- C10: the claim says a legacy 3-field object file yields a successful
`getInstance` with `Env` empty, and that neither `getInstance` nor
`waitStartPath` reads a list index at or beyond the decoded list's
length. The newest `getInstance` validates only `len(fields) < 3` and
then reads `fields[3]` unconditionally, and `waitStartPath` reads
`fields[3]` under a `len(fields) >= 3` guard: both index out of range (a
Go runtime panic) on exactly-3-field lists, shown here at concrete
inputs. -/
theorem c10_object_arity_panic :
    getInstance ⟨[(["instances", "7", "object"], [⟨1, some (.str "a\tr\tp")⟩]),
                  (["instances", "7", "start"], [⟨2, some (.str "")⟩]),
                  (["instances", "7", "registered"], [⟨3, some (.str "t0")⟩])], 3, 8⟩ 7 3
      = .error ⟨.oobPanic, "runtime error: index out of range"⟩ ∧
    waitStartBody (blankIns 7 0) (.str "ip\t8000\thost") 3
      = .error ⟨.oobPanic, "runtime error: index out of range"⟩ :=
  ⟨by decide, by decide⟩

/-- C6: a Set on `/instances/<id>/start` is classified `InsStart` exactly
when the body has more than one whitespace-separated field, and a Set
with an empty body is `InsUnclaim` when the path existed at the previous
revision and is ignored otherwise (classifier modelled from the spec; the
newest `newEvent` is not under src/). -/
theorem c6_start_event_classification (id body : String) (existed : Bool)
    (hid : isIdSeg id = true) :
    (newEventSpec ⟨["instances", id, "start"], body, true, existed⟩ = .insStart
        ↔ (wsFields body).length > 1) ∧
    (body = "" →
      newEventSpec ⟨["instances", id, "start"], body, true, existed⟩ =
        (if existed then .insUnclaim else .unknown)) := by
  simp only [newEventSpec, hid, true_and, and_true, if_true]
  refine ⟨⟨fun h => ?_, fun h => by simp [h]⟩, fun hb => ?_⟩
  · by_contra hlen
    rw [if_neg hlen] at h
    split at h
    · split at h <;> simp_all
    · simp_all
  · have hlen : ¬ (wsFields body).length > 1 := by subst hb; decide
    rw [if_neg hlen, if_pos hb]

/-- The post-status phase of `getInstance` never changes the
reconstructed status, the handle revision, or the id. -/
theorem getInstanceRest_fields {st : StoreSt} {snap : Nat} {i3 i : Instance}
    (h : getInstanceRest st snap i3 = .ok i) :
    i.status = i3.status ∧ i.snap = i3.snap ∧ i.id = i3.id := by
  unfold getInstanceRest getRestarts goIndex at h
  simp only [Bind.bind, Except.bind] at h
  repeat' split at h
  all_goals try exact Except.noConfusion h
  all_goals (injection h with h2; subst h2; exact ⟨rfl, rfl, rfl⟩)

/-- A successful `getInstance` returns a handle pinned to the read
snapshot, carrying the requested id. -/
theorem getInstance_snap {st : StoreSt} {id snap : Nat} {i : Instance}
    (h : getInstance st id snap = .ok i) : i.snap = snap ∧ i.id = id := by
  unfold getInstance at h
  simp only [Bind.bind, Except.bind, Pure.pure, Except.pure, blankIns] at h
  split at h
  · exact Except.noConfusion h
  · repeat' split at h
    all_goals try exact Except.noConfusion h
    all_goals have hs := getInstanceRest_fields h
    all_goals exact ⟨hs.2.1, hs.2.2⟩

/-- C5: a successful `getInstance` reports exactly the status described
by the spec: the start-list arity selects pending/claimed/running, the
status file overrides it when present, and a running result with a stop
file present becomes stopping. -/
theorem c5_status_reconstruction {st : StoreSt} {id snap : Nat} {i : Instance}
    (h : getInstance st id snap = .ok i) : i.status = statusSpec st id snap := by
  unfold getInstance at h
  simp only [Bind.bind, Except.bind, Pure.pure, Except.pure, Instance.pStart, Instance.pStatus,
    Instance.pStop, blankIns] at h
  split at h
  · exact Except.noConfusion h
  · repeat' split at h
    all_goals try exact Except.noConfusion h
    all_goals have hs := (getInstanceRest_fields h).1
    all_goals rw [hs]
    all_goals simp_all [statusSpec]
    all_goals
      first
      | rfl
      | (split <;>
          simp_all [InsStatusPending, InsStatusClaimed, InsStatusRunning, InsStatusStopping])

/-- Witness for C5: a running instance with a stop file reconstructs as
stopping, matching `statusSpec`. -/
theorem c5_status_reconstruction_witness :
    getInstance ⟨[
        (["instances", "5", "object"], [⟨1, some (.str "cat\tr1\tweb\tprod")⟩]),
        (["instances", "5", "start"], [⟨2, some (.str "10.0.0.1\t9000\tbox\t9001")⟩]),
        (["instances", "5", "registered"], [⟨3, some (.str "t0")⟩]),
        (["instances", "5", "stop"], [⟨4, some (.str "")⟩])], 4, 9⟩ 5 4 =
      .ok ⟨5, "cat", "r1", "web", "prod", "10.0.0.1", 9000, 9001, "box", "stopping",
        0, 0, "t0", "", ⟨"", "", ""⟩, 4⟩ ∧
    (Instance.mk 5 "cat" "r1" "web" "prod" "10.0.0.1" 9000 9001 "box" "stopping"
        0 0 "t0" "" ⟨"", "", ""⟩ 4).status = statusSpec ⟨[
        (["instances", "5", "object"], [⟨1, some (.str "cat\tr1\tweb\tprod")⟩]),
        (["instances", "5", "start"], [⟨2, some (.str "10.0.0.1\t9000\tbox\t9001")⟩]),
        (["instances", "5", "registered"], [⟨3, some (.str "t0")⟩]),
        (["instances", "5", "stop"], [⟨4, some (.str "")⟩])], 4, 9⟩ 5 4 :=
  ⟨by decide,
    @c5_status_reconstruction ⟨[
        (["instances", "5", "object"], [⟨1, some (.str "cat\tr1\tweb\tprod")⟩]),
        (["instances", "5", "start"], [⟨2, some (.str "10.0.0.1\t9000\tbox\t9001")⟩]),
        (["instances", "5", "registered"], [⟨3, some (.str "t0")⟩]),
        (["instances", "5", "stop"], [⟨4, some (.str "")⟩])], 4, 9⟩ 5 4
      (Instance.mk 5 "cat" "r1" "web" "prod" "10.0.0.1" 9000 9001 "box" "stopping"
        0 0 "t0" "" ⟨"", "", ""⟩ 4) (by decide)⟩

/-- C9: `LookupRevision` resolves the revision by ref first and returns
it on success; otherwise it resolves the tag and returns the revision
named by the tag's ref; when neither resolves it returns the original
NOT_FOUND from the first revision lookup. -/
theorem c9_lookup_revision (st : StoreSt) (app ref : String) :
    (∀ rev, getRevision st app ref st.rev = .ok rev → lookupRevision st app ref = .ok rev) ∧
    (∀ e tag, getRevision st app ref st.rev = .error e → e.kind = .notFound →
      getTag st app ref st.rev = .ok tag →
      lookupRevision st app ref = getRevision st app tag.ref st.rev) ∧
    (∀ e e', getRevision st app ref st.rev = .error e → e.kind = .notFound →
      getTag st app ref st.rev = .error e' → e'.kind = .notFound →
      lookupRevision st app ref = .error e) := by
  refine ⟨fun rev h => ?_, fun e tag he hk ht => ?_, fun e e' he hk ht hk' => ?_⟩
  · simp [lookupRevision, h]
  · simp [lookupRevision, he, hk, ht]
  · simp [lookupRevision, he, hk, ht, hk']

/-- Witness for C9: a store with revision `abc` and tag `stable → abc`;
`abc` resolves directly, `stable` resolves through the tag, and `zzz`
returns the original revision NOT_FOUND naming `zzz`. -/
theorem c9_lookup_revision_witness :
    lookupRevision ⟨[(["apps", "app", "revs", "abc", "archive-url"], [⟨1, some (.str "u")⟩]),
      (["apps", "app", "revs", "abc", "registered"], [⟨2, some (.str "r")⟩]),
      (["apps", "app", "tags", "stable"], [⟨3, some (.jsonTag "stable" "abc" "tt")⟩])], 3, 0⟩
      "app" "abc" = .ok ⟨"app", "abc", "u", "r"⟩ ∧
    lookupRevision ⟨[(["apps", "app", "revs", "abc", "archive-url"], [⟨1, some (.str "u")⟩]),
      (["apps", "app", "revs", "abc", "registered"], [⟨2, some (.str "r")⟩]),
      (["apps", "app", "tags", "stable"], [⟨3, some (.jsonTag "stable" "abc" "tt")⟩])], 3, 0⟩
      "app" "stable" =
      getRevision ⟨[(["apps", "app", "revs", "abc", "archive-url"], [⟨1, some (.str "u")⟩]),
        (["apps", "app", "revs", "abc", "registered"], [⟨2, some (.str "r")⟩]),
        (["apps", "app", "tags", "stable"], [⟨3, some (.jsonTag "stable" "abc" "tt")⟩])], 3, 0⟩
        "app" "abc" 3 ∧
    lookupRevision ⟨[(["apps", "app", "revs", "abc", "archive-url"], [⟨1, some (.str "u")⟩]),
      (["apps", "app", "revs", "abc", "registered"], [⟨2, some (.str "r")⟩]),
      (["apps", "app", "tags", "stable"], [⟨3, some (.jsonTag "stable" "abc" "tt")⟩])], 3, 0⟩
      "app" "zzz" = .error ⟨.notFound, "revision zzz not found for app app"⟩ :=
  ⟨(c9_lookup_revision _ "app" "abc").1 _ (by decide),
   (c9_lookup_revision _ "app" "stable").2.1 ⟨.notFound, "revision stable not found for app app"⟩
     ⟨"app", "stable", "abc", "tt"⟩ (by decide) rfl (by decide),
   (c9_lookup_revision _ "app" "zzz").2.2 ⟨.notFound, "revision zzz not found for app app"⟩
     ⟨.notFound, "tag zzz not found"⟩ (by decide) rfl (by decide) rfl⟩

/-- The revision scan returns TAG_SHADOWING whenever some revision ref
equals the tag name. -/
theorem tagScan_shadow {name : String} (ref : String) {revs : List RevM} (b : Bool)
    (h : ∃ r ∈ revs, r.ref = name) :
    tagScan name ref b revs =
      .error ⟨.tagShadowing, "revision already exists with tag name " ++ name⟩ := by
  induction revs generalizing b with
  | nil => simp at h
  | cons r rest ih =>
    rcases h with ⟨r', hr', he⟩
    rcases List.mem_cons.mp hr' with h1 | h1
    · subst h1; simp [tagScan, he]
    · by_cases hr : r.ref = name
      · simp [tagScan, hr]
      · simp only [tagScan, hr, if_neg, ite_false]
        exact ih _ ⟨r', h1, he⟩

/-- With no shadowing revision, the scan reports whether the target ref
was seen. -/
theorem tagScan_clean {name : String} (ref : String) {revs : List RevM} (b : Bool)
    (h : ∀ r ∈ revs, r.ref ≠ name) :
    tagScan name ref b revs = .ok (b || revs.any (fun r => r.ref == ref)) := by
  induction revs generalizing b with
  | nil => simp [tagScan]
  | cons r rest ih =>
    have hr : r.ref ≠ name := h r (List.mem_cons_self _ _)
    simp only [tagScan, hr, ite_false, if_neg]
    rw [ih _ (fun x hx => h x (List.mem_cons_of_mem _ hx))]
    simp [List.any_cons, Bool.or_assoc]

/-- C8: `Tag.Register` fails TAG_SHADOWING whenever some revision of the
app has ref equal to the tag name; with no shadowing it fails NOT_FOUND
when no revision has ref equal to the target; otherwise it (re)writes the
tag file, so an existing tag can be repointed to another existing
revision. -/
theorem c8_tag_register (st : StoreSt) (app name ref now : String) (fsnap : Nat)
    (revs : List RevM) (hrevs : getRevisions st app = .ok revs) :
    ((∃ r ∈ revs, r.ref = name) →
      tagRegister st app name ref now fsnap =
        .error ⟨.tagShadowing, "revision already exists with tag name " ++ name⟩) ∧
    ((∀ r ∈ revs, r.ref ≠ name) → (∀ r ∈ revs, r.ref ≠ ref) →
      tagRegister st app name ref now fsnap =
        .error ⟨.notFound, "revision " ++ ref ++ " not found for app " ++ app⟩) ∧
    ((∀ r ∈ revs, r.ref ≠ name) → (∃ r ∈ revs, r.ref = ref) →
      modRev st (tagPath app name) ≤ fsnap →
      tagRegister st app name ref now fsnap =
        .ok (write st (tagPath app name) (some (.jsonTag name ref now))) ∧
      readAt (write st (tagPath app name) (some (.jsonTag name ref now))) (tagPath app name)
        (st.rev + 1) = some (.jsonTag name ref now, st.rev + 1)) := by
  refine ⟨fun h => ?_, fun hn hnf => ?_, fun hn hf hcas => ?_⟩
  · simp [tagRegister, hrevs, Bind.bind, Except.bind, tagScan_shadow ref false h]
  · have hany : revs.any (fun r => r.ref == ref) = false := by
      simp only [List.any_eq_false]
      intro r hr
      simp [hnf r hr]
    simp [tagRegister, hrevs, Bind.bind, Except.bind, tagScan_clean ref false hn, hany]
  · have hany : revs.any (fun r => r.ref == ref) = true := by
      apply List.any_eq_true.mpr
      rcases hf with ⟨r, hr, he⟩
      exact ⟨r, hr, by simp [he]⟩
    constructor
    · simp [tagRegister, hrevs, Bind.bind, Except.bind, tagScan_clean ref false hn, hany,
        setCAS, hcas]
    · exact readAt_write_self_new st _ _ (Nat.le_refl _)

/-- Witness for C8: revisions `abc` and `def` with tag `stable → abc`;
registering tag `abc` shadows, tag `v1 → zzz` is NOT_FOUND, and
repointing `stable` to `def` succeeds and reads back. -/
theorem c8_tag_register_witness :
    (tagRegister ⟨[(["apps", "a", "revs", "abc", "archive-url"], [⟨1, some (.str "u1")⟩]),
        (["apps", "a", "revs", "abc", "registered"], [⟨2, some (.str "r1")⟩]),
        (["apps", "a", "revs", "def", "archive-url"], [⟨3, some (.str "u2")⟩]),
        (["apps", "a", "revs", "def", "registered"], [⟨4, some (.str "r2")⟩]),
        (["apps", "a", "tags", "stable"], [⟨5, some (.jsonTag "stable" "abc" "t0")⟩])], 5, 0⟩
        "a" "abc" "def" "t1" 5 =
      .error ⟨.tagShadowing, "revision already exists with tag name " ++ "abc"⟩) ∧
    (tagRegister ⟨[(["apps", "a", "revs", "abc", "archive-url"], [⟨1, some (.str "u1")⟩]),
        (["apps", "a", "revs", "abc", "registered"], [⟨2, some (.str "r1")⟩]),
        (["apps", "a", "revs", "def", "archive-url"], [⟨3, some (.str "u2")⟩]),
        (["apps", "a", "revs", "def", "registered"], [⟨4, some (.str "r2")⟩]),
        (["apps", "a", "tags", "stable"], [⟨5, some (.jsonTag "stable" "abc" "t0")⟩])], 5, 0⟩
        "a" "v1" "zzz" "t1" 5 =
      .error ⟨.notFound, "revision " ++ "zzz" ++ " not found for app " ++ "a"⟩) ∧
    (tagRegister ⟨[(["apps", "a", "revs", "abc", "archive-url"], [⟨1, some (.str "u1")⟩]),
        (["apps", "a", "revs", "abc", "registered"], [⟨2, some (.str "r1")⟩]),
        (["apps", "a", "revs", "def", "archive-url"], [⟨3, some (.str "u2")⟩]),
        (["apps", "a", "revs", "def", "registered"], [⟨4, some (.str "r2")⟩]),
        (["apps", "a", "tags", "stable"], [⟨5, some (.jsonTag "stable" "abc" "t0")⟩])], 5, 0⟩
        "a" "stable" "def" "t1" 5 =
      .ok (write ⟨[(["apps", "a", "revs", "abc", "archive-url"], [⟨1, some (.str "u1")⟩]),
        (["apps", "a", "revs", "abc", "registered"], [⟨2, some (.str "r1")⟩]),
        (["apps", "a", "revs", "def", "archive-url"], [⟨3, some (.str "u2")⟩]),
        (["apps", "a", "revs", "def", "registered"], [⟨4, some (.str "r2")⟩]),
        (["apps", "a", "tags", "stable"], [⟨5, some (.jsonTag "stable" "abc" "t0")⟩])], 5, 0⟩
        (tagPath "a" "stable") (some (.jsonTag "stable" "def" "t1")))) :=
  ⟨(c8_tag_register _ "a" "abc" "def" "t1" 5
      [⟨"a", "abc", "u1", "r1"⟩, ⟨"a", "def", "u2", "r2"⟩] (by decide)).1 (by decide),
   (c8_tag_register _ "a" "v1" "zzz" "t1" 5
      [⟨"a", "abc", "u1", "r1"⟩, ⟨"a", "def", "u2", "r2"⟩] (by decide)).2.1
      (by decide) (by decide),
   ((c8_tag_register _ "a" "stable" "def" "t1" 5
      [⟨"a", "abc", "u1", "r1"⟩, ⟨"a", "def", "u2", "r2"⟩] (by decide)).2.2
      (by decide) (by decide) (by decide)).1⟩

/-- Witness for C6 at concrete inputs: a four-field start body is
`InsStart`, and an empty body on a previously existing path is
`InsUnclaim`. -/
theorem c6_start_event_classification_witness :
    ((newEventSpec ⟨["instances", "42", "start"], "1.2.3.4\t9000\tbox\t9001", true, true⟩
        = .insStart ↔ (wsFields "1.2.3.4\t9000\tbox\t9001").length > 1) ∧
      ("1.2.3.4\t9000\tbox\t9001" = "" →
        newEventSpec ⟨["instances", "42", "start"], "1.2.3.4\t9000\tbox\t9001", true, true⟩ =
          (if true then .insUnclaim else .unknown))) ∧
    ((newEventSpec ⟨["instances", "42", "start"], "", true, true⟩
        = .insStart ↔ (wsFields "").length > 1) ∧
      ("" = "" →
        newEventSpec ⟨["instances", "42", "start"], "", true, true⟩ =
          (if true then .insUnclaim else .unknown))) :=
  ⟨c6_start_event_classification "42" "1.2.3.4\t9000\tbox\t9001" true (by decide),
    c6_start_event_classification "42" "" true (by decide)⟩

/-- A successful `verifyClaimer` means the start file's first field at
the current revision is exactly the calling host. -/
theorem verify_ok_claimer {st : StoreSt} {i i' : Instance} {host : String}
    (h : verifyClaimer st i host = .ok i') : claimerOf st i = some host := by
  unfold verifyClaimer getClaimer at h
  unfold claimerOf
  simp only [Bind.bind, Except.bind, Instance.pStart] at h ⊢
  cases hv : readAt st (instanceDir i.id ++ ["start"]) st.rev with
  | none => simp only [hv] at h; exact Except.noConfusion h
  | some vr =>
    obtain ⟨v, r⟩ := vr
    simp only [hv] at h
    cases hd : decodeList v with
    | nil => simp only [hd] at h; exact Except.noConfusion h
    | cons c0 tail =>
      simp only [hd] at h
      by_cases hch : c0 = host
      · simp [hv, hd, hch]
      · simp [hch] at h

/-- A recorded claimer different from the calling host makes
`verifyClaimer` fail UNAUTHORIZED. -/
theorem verify_mismatch {st : StoreSt} {i : Instance} {c host : String}
    (hc : claimerOf st i = some c) (hne : c ≠ host) :
    verifyClaimer st i host = .error ⟨.unauthorized, "instance has different claimer"⟩ := by
  unfold claimerOf at hc
  unfold verifyClaimer getClaimer
  simp only [Bind.bind, Except.bind, Instance.pStart] at hc ⊢
  cases hv : readAt st (instanceDir i.id ++ ["start"]) st.rev with
  | none => simp only [hv] at hc; exact Option.noConfusion hc
  | some vr =>
    obtain ⟨v, r⟩ := vr
    simp only [hv] at hc
    simp only [hv]
    cases hd : decodeList v with
    | nil => simp only [hd] at hc; exact Option.noConfusion hc
    | cons c0 tail =>
      simp only [hd] at hc
      simp only [hd]
      injection hc with hc
      subst hc
      simp [hne]

theorem started_ok {st st' : StoreSt} {i i' : Instance} {host hostname : String}
    {port telePort : Int} (hnr : i.status ≠ InsStatusRunning)
    (h : instStarted st i host hostname port telePort = .ok (st', i')) :
    claimerOf st i = some host := by
  unfold instStarted at h
  rw [if_neg hnr] at h
  simp only [Bind.bind, Except.bind] at h
  cases hv : verifyClaimer st i host with
  | error e => simp only [hv] at h; exact Except.noConfusion h
  | ok i1 => exact verify_ok_claimer hv

theorem started_mismatch {st : StoreSt} {i : Instance} {c host hostname : String}
    {port telePort : Int} (hnr : i.status ≠ InsStatusRunning)
    (hc : claimerOf st i = some c) (hne : c ≠ host) :
    instStarted st i host hostname port telePort =
      .error ⟨.unauthorized, "instance has different claimer"⟩ := by
  unfold instStarted
  rw [if_neg hnr]
  simp only [Bind.bind, Except.bind, verify_mismatch hc hne]

theorem exited_ok {st st' : StoreSt} {i i' : Instance} {host : String}
    (h : instExited st i host = .ok (st', i')) : claimerOf st i = some host := by
  unfold instExited at h
  simp only [Bind.bind, Except.bind] at h
  cases hv : verifyClaimer st i host with
  | error e => simp only [hv] at h; exact Except.noConfusion h
  | ok i1 => exact verify_ok_claimer hv

theorem exited_mismatch {st : StoreSt} {i : Instance} {c host : String}
    (hc : claimerOf st i = some c) (hne : c ≠ host) :
    instExited st i host = .error ⟨.unauthorized, "instance has different claimer"⟩ := by
  unfold instExited
  simp only [Bind.bind, Except.bind, verify_mismatch hc hne]

theorem failed_ok {st st' : StoreSt} {i i' : Instance} {host reason now : String}
    (hnp : i.status ≠ InsStatusPending)
    (h : instFailed st i host reason now = .ok (st', i')) : claimerOf st i = some host := by
  unfold instFailed at h
  simp only [Bind.bind, Except.bind, hnp, ite_true, if_pos, ne_eq, not_false_iff] at h
  cases hv : verifyClaimer st i host with
  | error e => simp only [hv] at h; exact Except.noConfusion h
  | ok i1 => exact verify_ok_claimer hv

theorem failed_mismatch {st : StoreSt} {i : Instance} {c host reason now : String}
    (hnp : i.status ≠ InsStatusPending) (hc : claimerOf st i = some c) (hne : c ≠ host) :
    instFailed st i host reason now =
      .error ⟨.unauthorized, "instance has different claimer"⟩ := by
  unfold instFailed
  simp only [Bind.bind, Except.bind, hnp, ite_true, if_pos, ne_eq, not_false_iff,
    verify_mismatch hc hne]

theorem stop_run {st : StoreSt} {i j : Instance} (hwf : StoreWF st)
    (hj : getInstance st i.id st.rev = .ok j) (hr : j.status = InsStatusRunning) :
    instStop st i = .ok (write st j.pStop (some (.str ""))) := by
  unfold instStop
  simp only [Bind.bind, Except.bind, hj, hr, setCAS]
  rw [if_neg (by simp), if_pos]
  rw [(getInstance_snap hj).1]
  exact hwf.modRev_le _

theorem stop_notrun {st : StoreSt} {i j : Instance}
    (hj : getInstance st i.id st.rev = .ok j) (hr : j.status ≠ InsStatusRunning) :
    instStop st i = .error ⟨.invalidState, "invalid state"⟩ := by
  unfold instStop
  simp only [Bind.bind, Except.bind, hj, hr, ite_true, if_pos, ne_eq, not_false_iff]

/-- C2 (amended): for a claimed or running instance, `Exited` and
`Failed` (from non-pending) succeed only when the calling host equals the
first field of the start file, and `Started` does so when the handle is
not already marked running; a recorded claimer different from the caller
yields UNAUTHORIZED. `Stop` takes no host and performs no claimer
verification: it succeeds exactly when the freshly fetched instance is
running, and returns INVALID_STATE otherwise. -/
theorem c2_transition_authorization (st : StoreSt) (i : Instance)
    (host hostname reason now : String) (port telePort : Int) (hwf : StoreWF st) :
    (i.status ≠ InsStatusRunning →
      (∀ st' i', instStarted st i host hostname port telePort = .ok (st', i') →
        claimerOf st i = some host) ∧
      (∀ c, claimerOf st i = some c → c ≠ host →
        instStarted st i host hostname port telePort =
          .error ⟨.unauthorized, "instance has different claimer"⟩)) ∧
    ((∀ st' i', instExited st i host = .ok (st', i') → claimerOf st i = some host) ∧
      (∀ c, claimerOf st i = some c → c ≠ host →
        instExited st i host = .error ⟨.unauthorized, "instance has different claimer"⟩)) ∧
    (i.status ≠ InsStatusPending →
      (∀ st' i', instFailed st i host reason now = .ok (st', i') →
        claimerOf st i = some host) ∧
      (∀ c, claimerOf st i = some c → c ≠ host →
        instFailed st i host reason now =
          .error ⟨.unauthorized, "instance has different claimer"⟩)) ∧
    (∀ j, getInstance st i.id st.rev = .ok j →
      (j.status = InsStatusRunning → instStop st i = .ok (write st j.pStop (some (.str "")))) ∧
      (j.status ≠ InsStatusRunning → instStop st i = .error ⟨.invalidState, "invalid state"⟩)) :=
  ⟨fun hnr => ⟨fun _ _ h => started_ok hnr h, fun _ hc hne => started_mismatch hnr hc hne⟩,
   ⟨fun _ _ h => exited_ok h, fun _ hc hne => exited_mismatch hc hne⟩,
   fun hnp => ⟨fun _ _ h => failed_ok hnp h, fun _ hc hne => failed_mismatch hnp hc hne⟩,
   fun _ hj => ⟨fun hr => stop_run hwf hj hr, fun hr => stop_notrun hj hr⟩⟩

/-- Counterexample to C2 as stated: a running instance whose start file
records claimer `h1` accepts `Started` called with host `h2` (the
already-running early return performs no claimer check), where the claim
requires UNAUTHORIZED. `Stop` likewise takes no host at all. -/
theorem c2_counterexample :
    claimerOf
      ⟨[(["instances", "5", "start"], [⟨1, some (.str "h1\t9000\tbox\t9001")⟩])], 1, 9⟩
      ⟨5, "cat", "r1", "web", "prod", "h1", 9000, 9001, "box", "running", 0, 0, "t0", "",
        ⟨"", "", ""⟩, 1⟩ = some "h1" ∧
    instStarted
      ⟨[(["instances", "5", "start"], [⟨1, some (.str "h1\t9000\tbox\t9001")⟩])], 1, 9⟩
      ⟨5, "cat", "r1", "web", "prod", "h1", 9000, 9001, "box", "running", 0, 0, "t0", "",
        ⟨"", "", ""⟩, 1⟩ "h2" "elsewhere" 1 2
      = .ok (⟨[(["instances", "5", "start"], [⟨1, some (.str "h1\t9000\tbox\t9001")⟩])], 1, 9⟩,
             ⟨5, "cat", "r1", "web", "prod", "h1", 9000, 9001, "box", "running", 0, 0, "t0", "",
              ⟨"", "", ""⟩, 1⟩) := ⟨by decide, by decide⟩

/-- When leaving failed or lost, `updateLookup` takes the Termination of
the serialized lookup entry: it writes the done entry with the stored
Termination `j.termination` (not the caller's), then deletes the source
entry. -/
theorem updateLookup_from_terminal {st : StoreSt} {i : Instance} {client reason now : String}
    {j : InsJson} {r : Nat} (hwf : StoreWF st)
    (hfrom : i.status = InsStatusFailed ∨ i.status = InsStatusLost)
    (hread : readAt st (i.procStatusPath i.status) st.rev = some (.jsonIns j, r)) :
    updateLookup st i i.status InsStatusDone client reason now =
      .ok (delFile
            (write st i.procDonePath
              (some (.jsonIns ({ i with termination := j.termination } : Instance).toJson)))
            (i.procStatusPath i.status),
          { i with termination := j.termination, snap := st.rev + 1 }) := by
  have hml := hwf.modRev_le i.procDonePath
  rcases hfrom with hf | hf <;>
    (rw [hf] at hread ⊢
     unfold updateLookup getSerialisedInstance
     simp only [Bind.bind, Except.bind, Pure.pure, Except.pure] at hread ⊢
     rw [if_pos (by simp [InsStatusFailed, InsStatusLost])]
     simp only [Instance.procStatusPath, Instance.procFailedPath, Instance.procLostPath,
       Instance.procDonePath, blankIns, InsStatusDone, InsStatusFailed, InsStatusLost,
       Instance.ofJson, Instance.toJson] at hread ⊢
     simp only [Instance.procDonePath, InsStatusDone, InsStatusFailed, InsStatusLost] at hml
     norm_num at hread ⊢
     rw [hread]
     simp only [setCAS]
     rw [if_pos (by simpa using hml)]
     simp [hf, InsStatusFailed, InsStatusLost, write])

/-- C4: unregistering a failed or lost instance moves the lookup entry to
the done path while preserving the Termination already serialized in the
failed/lost entry (the caller's client/reason are not recorded), and the
failed/lost entry is deleted. -/
theorem c4_termination_preserved (st : StoreSt) (i : Instance) (client reason now : String)
    (j : InsJson) (r : Nat) (hwf : StoreWF st)
    (hfrom : i.status = InsStatusFailed ∨ i.status = InsStatusLost)
    (hread : readAt st (i.procStatusPath i.status) st.rev = some (.jsonIns j, r)) :
    ∃ st', instUnregister st i client reason now = .ok st' ∧
      readAt st' i.procDonePath st'.rev =
        some (.jsonIns ({ i with termination := j.termination } : Instance).toJson,
          st.rev + 1) ∧
      liveAt st' (i.procStatusPath i.status) st'.rev = false := by
  have hnddf : i.procDonePath ≠ i.procStatusPath i.status := by
    rcases hfrom with hf | hf <;>
      (rw [hf]
       simp only [Instance.procStatusPath, Instance.procDonePath, Instance.procFailedPath,
         Instance.procLostPath, InsStatusDone, InsStatusFailed, InsStatusLost]
       norm_num
       exact cons_append_ne (by decide))
  have hpfx : List.isPrefixOf (instanceDir i.id) i.procDonePath = false := by
    simp only [Instance.procDonePath, procDir, instanceDir]
    exact isPrefixOf_cons_false (by decide)
  have hpfx2 : List.isPrefixOf (instanceDir i.id) (i.procStatusPath i.status) = false := by
    rcases hfrom with hf | hf <;>
      (rw [hf]
       simp only [Instance.procStatusPath, Instance.procDonePath, Instance.procFailedPath,
         Instance.procLostPath, InsStatusDone, InsStatusFailed, InsStatusLost, procDir,
         instanceDir]
       norm_num
       exact isPrefixOf_cons_false (by decide))
  set V : Option Val :=
    some (.jsonIns ({ i with termination := j.termination } : Instance).toJson) with hV
  set st1 := write st i.procDonePath V with hst1
  have hlive1 : liveAt st1 (i.procStatusPath i.status) st1.rev = true := by
    rw [hst1]
    show liveAt _ _ (st.rev + 1) = true
    unfold liveAt
    rw [readAt_write_ne V _ (Ne.symm hnddf)]
    have := hwf.liveAt_stable (i.procStatusPath i.status) (Nat.le_succ st.rev)
    unfold liveAt at this
    rw [this]
    simp [hread]
  have hdel : delFile st1 (i.procStatusPath i.status) =
      write st1 (i.procStatusPath i.status) none := by
    unfold Visor.delFile
    rw [if_pos hlive1]
  refine ⟨delTree (write st1 (i.procStatusPath i.status) none) (instanceDir i.id), ?_, ?_, ?_⟩
  · unfold instUnregister
    rw [updateLookup_from_terminal hwf hfrom hread]
    simp only [Bind.bind, Except.bind]
    rw [hdel]
  · have hh : histOf (delTree (write st1 (i.procStatusPath i.status) none) (instanceDir i.id))
        i.procDonePath = ⟨st.rev + 1, V⟩ :: histOf st i.procDonePath := by
      rw [histOf_delTree_ne hpfx, histOf_write_ne none hnddf, hst1, histOf_write_self]
    rw [readAt_head hh (by simp only [hst1, Visor.delTree, write]; omega)]
  · have hh : histOf (delTree (write st1 (i.procStatusPath i.status) none) (instanceDir i.id))
        (i.procStatusPath i.status) =
        ⟨st1.rev + 1, none⟩ :: histOf st1 (i.procStatusPath i.status) := by
      rw [histOf_delTree_ne hpfx2, histOf_write_self]
    unfold liveAt
    rw [readAt_head hh (by simp only [hst1, Visor.delTree, write]; omega)]
    rfl

/-- Witness for C4: a failed instance whose failed-lookup entry carries
Termination (h1, because, tf); Unregister by another client moves it to
done with that Termination intact and removes the failed entry. -/
theorem c4_termination_preserved_witness :
    ∃ st', instUnregister
        ⟨[(["apps", "cat", "procs", "web", "failed", "5"],
            [⟨4, some (.jsonIns ⟨5, "cat", "r1", "web", "prod", "h1", 9000, 9001, "box",
              "failed", 0, 0, "t0", "tc", ⟨"h1", "because", "tf"⟩⟩)⟩]),
          (["instances", "5", "object"], [⟨1, some (.str "cat\tr1\tweb\tprod")⟩]),
          (["instances", "5", "start"], [⟨2, some (.str "h1")⟩]),
          (["instances", "5", "status"], [⟨3, some (.str "failed")⟩])], 4, 9⟩
        ⟨5, "cat", "r1", "web", "prod", "h1", 9000, 9001, "box", "failed", 0, 0, "t0", "tc",
          ⟨"h1", "because", "tf"⟩, 4⟩ "other-client" "cleanup" "tz" = .ok st' ∧
      readAt st'
        (Instance.procDonePath ⟨5, "cat", "r1", "web", "prod", "h1", 9000, 9001, "box",
          "failed", 0, 0, "t0", "tc", ⟨"h1", "because", "tf"⟩, 4⟩) st'.rev =
        some (.jsonIns (({ (⟨5, "cat", "r1", "web", "prod", "h1", 9000, 9001, "box", "failed",
            0, 0, "t0", "tc", ⟨"h1", "because", "tf"⟩, 4⟩ : Instance) with
            termination := Termination.mk "h1" "because" "tf" } : Instance).toJson), 4 + 1) ∧
      liveAt st'
        (Instance.procStatusPath ⟨5, "cat", "r1", "web", "prod", "h1", 9000, 9001, "box",
          "failed", 0, 0, "t0", "tc", ⟨"h1", "because", "tf"⟩, 4⟩ "failed") st'.rev = false :=
  c4_termination_preserved _ _ "other-client" "cleanup" "tz"
    ⟨5, "cat", "r1", "web", "prod", "h1", 9000, 9001, "box", "failed", 0, 0, "t0", "tc",
      ⟨"h1", "because", "tf"⟩⟩ 4 (by decide) (Or.inl (by decide)) (by decide)

/-- Witness for C2 at a claimed instance with claimer `h1`: `Started` by
`h2` is UNAUTHORIZED, and `Stop` of the non-running instance is
INVALID_STATE. -/
theorem c2_transition_authorization_witness :
    instStarted ⟨[
        (["instances", "5", "object"], [⟨1, some (.str "cat\tr1\tweb\tprod")⟩]),
        (["instances", "5", "start"], [⟨2, some (.str "h1")⟩]),
        (["instances", "5", "registered"], [⟨3, some (.str "t0")⟩])], 3, 9⟩
      ⟨5, "cat", "r1", "web", "prod", "h1", 0, 0, "", "claimed", 0, 0, "t0", "", ⟨"", "", ""⟩, 3⟩
      "h2" "box" 1 2 = .error ⟨.unauthorized, "instance has different claimer"⟩ ∧
    instStop ⟨[
        (["instances", "5", "object"], [⟨1, some (.str "cat\tr1\tweb\tprod")⟩]),
        (["instances", "5", "start"], [⟨2, some (.str "h1")⟩]),
        (["instances", "5", "registered"], [⟨3, some (.str "t0")⟩])], 3, 9⟩
      ⟨5, "cat", "r1", "web", "prod", "h1", 0, 0, "", "claimed", 0, 0, "t0", "", ⟨"", "", ""⟩, 3⟩
      = .error ⟨.invalidState, "invalid state"⟩ :=
  ⟨((c2_transition_authorization _ _ "h2" "box" "r" "tn" 1 2 (by decide)).1 (by decide)).2
      "h1" (by decide) (by decide),
   ((c2_transition_authorization _
      ⟨5, "cat", "r1", "web", "prod", "h1", 0, 0, "", "claimed", 0, 0, "t0", "", ⟨"", "", ""⟩, 3⟩
      "h2" "box" "r" "tn" 1 2 (by decide)).2.2.2
      ⟨5, "cat", "r1", "web", "prod", "h1", 0, 0, "", "claimed", 0, 0, "t0", "", ⟨"", "", ""⟩, 3⟩
      (by decide)).2 (by decide)⟩

/-- A successful read at a snapshot returns an entry revision at most the
snapshot. -/
theorem readAt_rev_le {st : StoreSt} {p : Path} {snap : Nat} {v : Val} {r : Nat}
    (h : readAt st p snap = some (v, r)) : r ≤ snap := by
  unfold readAt entryAt at h
  cases hf : (histOf st p).find? (fun e => e.rev ≤ snap) with
  | none => rw [hf] at h; exact Option.noConfusion h
  | some e =>
    obtain ⟨er, ev⟩ := e
    rw [hf] at h
    cases ev with
    | none => exact Option.noConfusion h
    | some w =>
      injection h with h1
      have h2 : er = r := congrArg Prod.snd h1
      have hp := List.find?_some hf
      simp only at hp
      subst h2
      simpa using hp

/-- After one `Claim` succeeds, every further `Claim` from the same
handle snapshot fails with INS_CLAIMED: the success bumped the start
file's modification revision past the stale snapshot, so the CAS always
reports a revision mismatch, which `Claim` translates. -/
theorem claim_after_success {st st' : StoreSt} {i i' : Instance} {host now : String}
    (hwf : StoreWF st) (hsnap : i.snap ≤ st.rev)
    (h : instClaim st i host now = .ok (st', i')) :
    ∀ h2 n2, instClaim st' i h2 n2 = .error ⟨.insClaimed, "already claimed"⟩ := by
  intro h2 n2
  unfold instClaim at h
  split at h
  · exact Except.noConfusion h
  rename_i hdone
  split at h
  · exact Except.noConfusion h
  rename_i v frev hread
  split at h
  · exact Except.noConfusion h
  rename_i hlen
  split at h
  · exact Except.noConfusion h
  rename_i st1 hcas1
  split at h
  · exact Except.noConfusion h
  rename_i st2 hcas2
  injection h with h1
  have hst : st2 = st' := congrArg Prod.fst h1
  subst hst
  unfold setCAS at hcas1 hcas2
  split at hcas1
  case isFalse => exact Except.noConfusion hcas1
  rename_i hm1
  injection hcas1 with hcas1
  split at hcas2
  case isFalse => exact Except.noConfusion hcas2
  rename_i hm2
  injection hcas2 with hcas2
  subst hcas1
  subst hcas2
  have hdf : isDone st i = false := Bool.eq_false_iff.mpr hdone
  have hscne : i.pStart ≠ i.pClaims host := by
    simp only [Instance.pStart, Instance.pClaims]
    exact cons_append_ne (by decide)
  have hdpfx1 : List.isPrefixOf i.procDonePath i.pStart = false := by
    simp only [Instance.procDonePath, procDir, Instance.pStart, instanceDir]
    exact isPrefixOf_cons_false (by decide)
  have hdpfx2 : List.isPrefixOf i.procDonePath (i.pClaims host) = false := by
    simp only [Instance.procDonePath, procDir, Instance.pClaims, instanceDir]
    exact isPrefixOf_cons_false (by decide)
  set S1 := write st i.pStart (some (.str host)) with hS1
  set S2 := write S1 (i.pClaims host) (some (.str now)) with hS2
  have hwf1 : StoreWF S1 := hwf.write _ _
  have hdone2 : isDone S2 i = false := by
    unfold isDone at hdf ⊢
    have e2 : existsAt S2 i.procDonePath (S1.rev + 1) = existsAt S1 i.procDonePath S1.rev :=
      existsAt_write_frame hwf1 hdpfx2 _
    have e1 : existsAt S1 i.procDonePath (st.rev + 1) = existsAt st i.procDonePath st.rev :=
      existsAt_write_frame hwf hdpfx1 _
    show existsAt S2 i.procDonePath (S1.rev + 1) = false
    rw [e2]
    show existsAt S1 i.procDonePath (st.rev + 1) = false
    rw [e1, hdf]
  have hread2 : readAt S2 i.pStart i.snap = some (v, frev) := by
    rw [hS2, readAt_write_ne _ _ hscne, hS1,
      readAt_write_self_old st i.pStart _ (Nat.lt_succ_of_le hsnap), hread]
  have hmod2 : modRev S2 i.pStart = st.rev + 1 := by
    rw [hS2, modRev_write_ne _ hscne, hS1, modRev_write_self]
  have hfr : frev ≤ i.snap := readAt_rev_le hread
  unfold instClaim
  rw [if_neg (by simp [hdone2])]
  simp only [hread2]
  rw [if_neg hlen]
  unfold setCAS
  rw [if_neg (by rw [hmod2]; omega)]
  simp

/-- When every single `Claim` on the store fails, a whole sequence of
claims has no successes. -/
theorem claimCount_zero {st : StoreSt} {i : Instance} (now : String)
    (h : ∀ h2 n2, instClaim st i h2 n2 = .error ⟨.insClaimed, "already claimed"⟩)
    (hosts : List String) : claimCount i now st hosts = 0 := by
  induction hosts with
  | nil => rfl
  | cons hd tl ih => simp [claimCount, h hd now, ih]

/-- Among any sequence of `Claim` calls made from the same handle
snapshot, at most one succeeds. -/
theorem claimCount_le_one (i : Instance) (now : String) :
    ∀ hosts st, StoreWF st → i.snap ≤ st.rev → claimCount i now st hosts ≤ 1 := by
  intro hosts
  induction hosts with
  | nil => intro st _ _; simp [claimCount]
  | cons hd tl ih =>
    intro st hwf hsnap
    cases hc : instClaim st i hd now with
    | ok p =>
      obtain ⟨st1, i1⟩ := p
      have hz := claimCount_zero now (claim_after_success hwf hsnap hc) tl
      simp [claimCount, hc, hz]
    | error e =>
      simp only [claimCount, hc]
      exact ih st hwf hsnap

/-- C1: `Claim(host)` fails UNAUTHORIZED when the instance is done; it
fails INS_CLAIMED when the start file read at the handle's snapshot is
non-empty, and also when the CAS write of host into start loses to a
concurrent writer (the start file's modification revision is past the
handle's snapshot, so the revision mismatch is translated to
INS_CLAIMED); consequently at most one of any sequence of Claim calls
made from the same pending snapshot succeeds. -/
theorem c1_claim_protocol (st : StoreSt) (i : Instance) (host now : String)
    (hwf : StoreWF st) (hsnap : i.snap ≤ st.rev) :
    (isDone st i = true →
      instClaim st i host now = .error ⟨.unauthorized, "instance is done"⟩) ∧
    (∀ v frev, isDone st i = false → readAt st i.pStart i.snap = some (v, frev) →
      0 < (decodeList v).length →
      instClaim st i host now = .error ⟨.insClaimed, "already claimed"⟩) ∧
    (∀ v frev, isDone st i = false → readAt st i.pStart i.snap = some (v, frev) →
      (decodeList v).length = 0 → max i.snap frev < modRev st i.pStart →
      instClaim st i host now = .error ⟨.insClaimed, "already claimed"⟩) ∧
    (∀ hosts, claimCount i now st hosts ≤ 1) := by
  refine ⟨?_, ?_, ?_, ?_⟩
  · intro hdone
    unfold instClaim
    rw [if_pos hdone]
  · intro v frev hdone hread hlen
    unfold instClaim
    rw [if_neg (by simp [hdone])]
    simp only [hread]
    rw [if_pos hlen]
  · intro v frev hdone hread hlen hmod
    unfold instClaim
    rw [if_neg (by simp [hdone])]
    simp only [hread]
    rw [if_neg (by omega)]
    unfold setCAS
    rw [if_neg (by omega)]
    simp
  · intro hosts
    exact claimCount_le_one i now hosts st hwf hsnap

/-- Witness for C1: a pending instance with an empty start file; three
hosts race to claim it and at most one (here the first) succeeds. -/
theorem c1_claim_protocol_witness :
    claimCount ⟨1, "", "", "", "", "", 0, 0, "", "pending", 0, 0, "", "", ⟨"", "", ""⟩, 2⟩ "t"
      ⟨[(["instances", "1", "start"], [⟨2, some (.str "")⟩]),
        (["instances", "1", "object"], [⟨1, some (.str "a")⟩])], 2, 1⟩
      ["h1", "h2", "h3"] ≤ 1 :=
  (c1_claim_protocol ⟨[(["instances", "1", "start"], [⟨2, some (.str "")⟩]),
      (["instances", "1", "object"], [⟨1, some (.str "a")⟩])], 2, 1⟩
    ⟨1, "", "", "", "", "", 0, 0, "", "pending", 0, 0, "", "", ⟨"", "", ""⟩, 2⟩
    "hx" "t" (by decide) (by decide)).2.2.2 ["h1", "h2", "h3"]

/-- A successful compare-and-set is exactly a `write`. -/
theorem setCAS_ok {st s : StoreSt} {p : Path} {v : Val} {atRev : Nat}
    (h : setCAS st p v atRev = .ok s) : s = write st p (some v) := by
  unfold setCAS at h
  split at h
  · injection h with h1; exact h1.symm
  · exact Except.noConfusion h

/-- A successful read at the current revision returns the modification
revision (well-formed stores). -/
theorem readAt_cur_modRev {st : StoreSt} (hwf : StoreWF st) {p : Path} {v : Val} {r : Nat}
    (h : readAt st p st.rev = some (v, r)) : modRev st p = r := by
  unfold readAt entryAt at h
  rw [find?_eq_head_of_all (fun e he => by simp [(hwf.hist_le he).2])] at h
  unfold modRev
  cases hh : histOf st p with
  | nil => rw [hh] at h; exact Option.noConfusion h
  | cons e t =>
    rw [hh] at h
    obtain ⟨er, ev⟩ := e
    cases ev with
    | none => exact Option.noConfusion h
    | some w =>
      simp only [List.head?] at h
      injection h with h1
      exact congrArg Prod.snd h1

/-- Inversion of a successful `claimNextPort`: the returned port is the
decoded current counter value and the store got the counter bumped by
one. -/
theorem claimNextPort_ok {st st1 : StoreSt} {r : Int} :
    ∀ {fuel : Nat}, claimNextPort st fuel = .ok (r, st1) →
    ∃ w frev, readAt st nextPortPath st.rev = some (w, frev) ∧ decodeInt w = some r ∧
      st1 = write st nextPortPath (some (.int (r + 1)))
  | 0, h => Except.noConfusion h
  | fuel + 1, h => by
    unfold claimNextPort at h
    split at h
    · exact Except.noConfusion h
    rename_i w frev hread
    split at h
    · exact Except.noConfusion h
    rename_i p hdec
    split at h
    · rename_i s hcas
      injection h with h1
      have hp : p = r := congrArg Prod.fst h1
      have hs : s = st1 := congrArg Prod.snd h1
      subst hp; subst hs
      exact ⟨w, frev, hread, hdec, (setCAS_ok hcas).symm ▸ rfl⟩
    · exact claimNextPort_ok h

/-- The consecutive integers `v, v+1, ..., v+n-1`. -/
def intRange (v : Int) : Nat → List Int
  | 0 => []
  | n + 1 => v :: intRange (v + 1) n

/-- Members of `intRange v n` are at least `v`. -/
theorem intRange_mem_le {x : Int} : ∀ {n : Nat} {v : Int}, x ∈ intRange v n → v ≤ x
  | 0, v, h => absurd h (by simp [intRange])
  | n + 1, v, h => by
    simp only [intRange, List.mem_cons] at h
    rcases h with h | h
    · omega
    · have := intRange_mem_le h
      omega

/-- `intRange` is strictly increasing. -/
theorem intRange_pairwise : ∀ (n : Nat) (v : Int),
    List.Pairwise (fun a b : Int => a < b) (intRange v n)
  | 0, v => by simp [intRange]
  | n + 1, v => by
    simp only [intRange, List.pairwise_cons]
    exact ⟨fun x hx => by have := intRange_mem_le hx; omega, intRange_pairwise n (v + 1)⟩

/-- Inversion of a successful `Proc.Register` when the counter holds the
integer `v`: the proc got ports `v` and `v+1`, the port file holds `v`,
and the counter was compare-and-set twice, to `v+2`. -/
theorem procRegister_ok {st st2 : StoreSt} {pm : ProcM} {app name now : String} {fuel : Nat}
    {v : Int} {frev : Nat} (hwf : StoreWF st)
    (hcnt : readAt st nextPortPath st.rev = some (.int v, frev))
    (h : procRegister st app name now fuel = .ok (pm, st2)) :
    pm.port = v ∧ pm.controlPort = v + 1 ∧ StoreWF st2 ∧ st2.rev = st.rev + 5 ∧
      readAt st2 nextPortPath st2.rev = some (.int (v + 2), st.rev + 3) ∧
      readAt st2 (procPortPath app name) st2.rev = some (.int v, st.rev + 2) := by
  unfold procRegister at h
  simp only [Bind.bind, Except.bind, Pure.pure, Except.pure] at h
  split at h
  · exact Except.noConfusion h
  split at h
  · exact Except.noConfusion h
  split at h
  · exact Except.noConfusion h
  rename_i r1 hc1
  obtain ⟨p1, s1⟩ := r1
  dsimp only at h
  obtain ⟨w1, f1, hr1, hd1, hs1⟩ := claimNextPort_ok hc1
  rw [hcnt] at hr1
  injection hr1 with hr1
  have hw1 : w1 = .int v := (congrArg Prod.fst hr1).symm
  subst hw1
  simp only [decodeInt] at hd1
  injection hd1 with hd1
  subst hd1
  split at h
  · exact Except.noConfusion h
  rename_i stA hcA
  have hA := setCAS_ok hcA
  split at h
  · exact Except.noConfusion h
  rename_i r2 hc2
  obtain ⟨p2, s2⟩ := r2
  dsimp only at h
  obtain ⟨w2, f2, hr2, hd2, hs2⟩ := claimNextPort_ok hc2
  have hnp1 : nextPortPath ≠ procPortPath app name := by
    simp only [nextPortPath, procPortPath, procDir]
    intro he; exact List.noConfusion he (fun he1 _ => by exact absurd he1 (by decide))
  have hrA : readAt stA nextPortPath stA.rev = some (.int (v + 1), st.rev + 1) := by
    rw [hA, hs1]
    show readAt _ _ ((write st nextPortPath (some (.int (v + 1)))).rev + 1) = _
    rw [readAt_write_ne _ _ hnp1]
    rw [readAt_write_self_new st nextPortPath _ (by simp [write])]
  rw [hrA] at hr2
  injection hr2 with hr2
  have hw2 : w2 = .int (v + 1) := (congrArg Prod.fst hr2).symm
  subst hw2
  simp only [decodeInt] at hd2
  injection hd2 with hd2
  have hp2 : p2 = v + 1 := hd2.symm
  subst hp2
  split at h
  · exact Except.noConfusion h
  rename_i stB hcB
  have hB := setCAS_ok hcB
  split at h
  · exact Except.noConfusion h
  rename_i stC hcC
  have hC := setCAS_ok hcC
  injection h with h1
  have hpm : pm = ⟨app, name, v, v + 1, now, stC.rev⟩ := (congrArg Prod.fst h1).symm
  have hst2 : stC = st2 := congrArg Prod.snd h1
  subst hst2
  have hnp2 : nextPortPath ≠ procControlPortPath app name := by
    simp only [nextPortPath, procControlPortPath, procDir]
    intro he; exact List.noConfusion he (fun he1 _ => by exact absurd he1 (by decide))
  have hnp3 : nextPortPath ≠ procRegisteredPath app name := by
    simp only [nextPortPath, procRegisteredPath, procDir]
    intro he; exact List.noConfusion he (fun he1 _ => by exact absurd he1 (by decide))
  subst hC; subst hB; subst hs2; subst hA; subst hs1
  have hpp3 : procPortPath app name ≠ procRegisteredPath app name := by
    simp only [procPortPath, procRegisteredPath]
    exact cons_append_ne (by decide)
  have hpp2 : procPortPath app name ≠ procControlPortPath app name := by
    simp only [procPortPath, procControlPortPath]
    exact cons_append_ne (by decide)
  refine ⟨by rw [hpm], by rw [hpm], ?_, by simp [write], ?_, ?_⟩
  · exact ((((hwf.write _ _).write _ _).write _ _).write _ _).write _ _
  · show readAt _ _ _ = _
    rw [readAt_write_ne _ _ hnp3, readAt_write_ne _ _ hnp2]
    rw [readAt_write_self_new _ nextPortPath _ (by simp [write])]
    simp only [write]
    rw [show v + 1 + 1 = v + 2 from by omega]
  · show readAt _ _ _ = _
    rw [readAt_write_ne _ _ hpp3, readAt_write_ne _ _ hpp2,
      readAt_write_ne _ _ (Ne.symm hnp1)]
    rw [readAt_write_self_new _ (procPortPath app name) _ (by simp [write])]
    simp [write]

/-- A sequence of successful registrations issues exactly the
consecutive ports starting at the counter value. -/
theorem registerSeq_ports {now : String} {fuel : Nat} :
    ∀ (l : List (String × String)) (st : StoreSt) (ps : List ProcM) (st2 : StoreSt)
      (v : Int) (frev : Nat), StoreWF st →
      readAt st nextPortPath st.rev = some (.int v, frev) →
      registerSeq now fuel st l = .ok (ps, st2) →
      issuedPorts ps = intRange v (2 * ps.length)
  | [], st, ps, st2, v, frev, hwf, hcnt, h => by
    unfold registerSeq at h
    injection h with h1
    have hps : ps = [] := (congrArg Prod.fst h1).symm
    subst hps
    rfl
  | an :: rest, st, ps, st2, v, frev, hwf, hcnt, h => by
    unfold registerSeq at h
    simp only [Bind.bind, Except.bind, Pure.pure, Except.pure] at h
    split at h
    · exact Except.noConfusion h
    rename_i r hr
    split at h
    · exact Except.noConfusion h
    rename_i rs hrs
    injection h with h1
    have hps : ps = r.1 :: rs.1 := (congrArg Prod.fst h1).symm
    subst hps
    obtain ⟨hport, hctrl, hwf2, hrev2, hcnt2, hpf⟩ := procRegister_ok hwf hcnt hr
    have ih := registerSeq_ports rest r.2 rs.1 rs.2 (v + 2) (st.rev + 3) hwf2 hcnt2 hrs
    show r.1.port :: r.1.controlPort :: issuedPorts rs.1 = _
    rw [hport, hctrl, ih]
    show _ = intRange v (2 * (rs.1.length + 1))
    rw [show 2 * (rs.1.length + 1) = 2 * rs.1.length + 1 + 1 from by omega]
    simp only [intRange]
    rw [show v + 1 + 1 = v + 2 from by omega]

/-- C3: every successful `Proc.Register` hands out the current
`/next-port` value and its successor as the proc's port and control
port, leaves the claimed port written in the proc's port file, and
leaves `/next-port` compare-and-set to the old value plus two (one
increment per claimed port); across any sequence of successful
registrations the issued ports are exactly the consecutive range from
the counter, hence pairwise distinct and strictly monotone. -/
theorem c3_port_allocation (st : StoreSt) (app name now : String) (v : Int) (frev : Nat)
    (hwf : StoreWF st)
    (hcnt : readAt st nextPortPath st.rev = some (.int v, frev)) :
    (∀ pm st2 fuel, procRegister st app name now fuel = .ok (pm, st2) →
      pm.port = v ∧ pm.controlPort = v + 1 ∧
      readAt st2 (procPortPath app name) st2.rev = some (.int v, st.rev + 2) ∧
      readAt st2 nextPortPath st2.rev = some (.int (v + 2), st.rev + 3)) ∧
    (∀ l ps st2 fuel, registerSeq now fuel st l = .ok (ps, st2) →
      issuedPorts ps = intRange v (2 * ps.length) ∧
      List.Pairwise (fun a b : Int => a < b) (issuedPorts ps)) := by
  constructor
  · intro pm st2 fuel h
    obtain ⟨h1, h2, _, _, h5, h6⟩ := procRegister_ok hwf hcnt h
    exact ⟨h1, h2, h6, h5⟩
  · intro l ps st2 fuel hsq
    have hip := registerSeq_ports l st ps st2 v frev hwf hcnt hsq
    exact ⟨hip, hip ▸ intRange_pairwise _ _⟩


/-- Witness for C3: a store whose counter holds 8000; one registration
issues ports 8000 and 8001, strictly monotone. -/
theorem c3_port_allocation_witness :
    issuedPorts [⟨"a", "web", 8000, 8001, "t", 6⟩] =
      intRange 8000 (2 * (List.length [(⟨"a", "web", 8000, 8001, "t", 6⟩ : ProcM)])) ∧
    List.Pairwise (fun a b : Int => a < b) (issuedPorts [⟨"a", "web", 8000, 8001, "t", 6⟩]) :=
  (c3_port_allocation ⟨[(["next-port"], [⟨1, some (.int 8000)⟩])], 1, 0⟩ "a" "web" "t" 8000 1
      (by decide) (by decide)).2 [("a", "web")] [⟨"a", "web", 8000, 8001, "t", 6⟩]
    ⟨[(["next-port"], [⟨4, some (.int 8002)⟩, ⟨2, some (.int 8001)⟩, ⟨1, some (.int 8000)⟩]),
      (["apps", "a", "procs", "web", "port"], [⟨3, some (.int 8000)⟩]),
      (["apps", "a", "procs", "web", "port-control"], [⟨5, some (.int 8001)⟩]),
      (["apps", "a", "procs", "web", "registered"], [⟨6, some (.str "t")⟩])], 6, 0⟩
    1 (by decide)


/-- Segment lists with different heads differ. -/
theorem ne_of_head_ne {a b : String} {r s : List String} (h : a ≠ b) :
    (a :: r) ≠ (b :: s) := by
  intro he
  injection he with h1
  exact h h1

/-- `RegisterInstance` always succeeds on a well-formed store: all four
writes are compare-and-set at the current revision against untouched
paths. -/
theorem registerInstance_ok {st : StoreSt} (hwf : StoreWF st) (app rev proc env now : String) :
    ∃ st2 i, registerInstance st app rev proc env now = .ok (st2, i) ∧ StoreWF st2 ∧
      st2.uid = st.uid + 1 := by
  unfold registerInstance
  simp only [Bind.bind, Except.bind, Pure.pure, Except.pure]
  split
  case h_1 e heq =>
    exfalso
    unfold setCAS at heq
    split at heq
    · exact Except.noConfusion heq
    · rename_i hm
      exact hm (hwf.modRev_le _)
  case h_2 st1 heq =>
    have h1 := setCAS_ok heq
    subst h1
    split
    case h_1 e heq2 =>
      exfalso
      unfold setCAS at heq2
      split at heq2
      · exact Except.noConfusion heq2
      · rename_i hm
        apply hm
        rw [modRev_write_ne]
        · exact hwf.modRev_le _
        · simp only [Instance.pStart, Instance.pObject, instanceDir]
          exact cons_append_ne (by decide)
    case h_2 st2 heq2 =>
      have h2 := setCAS_ok heq2
      subst h2
      split
      case h_1 e heq3 =>
        exfalso
        unfold setCAS at heq3
        split at heq3
        · exact Except.noConfusion heq3
        · rename_i hm
          apply hm
          rw [modRev_write_ne, modRev_write_ne]
          · exact hwf.modRev_le _
          · simp only [Instance.procStatusPath, Instance.procInstancesPath,
              Instance.procDonePath, Instance.procFailedPath, Instance.procLostPath,
              InsStatusRunning, InsStatusDone, InsStatusFailed, InsStatusLost,
              procDir, Instance.pObject, instanceDir]
            norm_num
            exact ne_of_head_ne (by decide)
          · simp only [Instance.procStatusPath, Instance.procInstancesPath,
              Instance.procDonePath, Instance.procFailedPath, Instance.procLostPath,
              InsStatusRunning, InsStatusDone, InsStatusFailed, InsStatusLost,
              procDir, Instance.pStart, instanceDir]
            norm_num
            exact ne_of_head_ne (by decide)
      case h_2 st3 heq3 =>
        have h3 := setCAS_ok heq3
        subst h3
        split
        case h_1 e heq4 =>
          exfalso
          unfold setCAS at heq4
          split at heq4
          · exact Except.noConfusion heq4
          · rename_i hm
            apply hm
            rw [modRev_write_ne, modRev_write_ne, modRev_write_ne]
            · exact hwf.modRev_le _
            · simp only [Instance.pRegistered, Instance.pStart, instanceDir]
              exact cons_append_ne (by decide)
            · simp only [Instance.pRegistered, Instance.pObject, instanceDir]
              exact cons_append_ne (by decide)
            · simp only [Instance.procStatusPath, Instance.procInstancesPath,
                Instance.procDonePath, Instance.procFailedPath, Instance.procLostPath,
                InsStatusRunning, InsStatusDone, InsStatusFailed, InsStatusLost,
                procDir, Instance.pRegistered, instanceDir]
              norm_num
              exact ne_of_head_ne (by decide)
        case h_2 st4 heq4 =>
          have h4 := setCAS_ok heq4
          subst h4
          refine ⟨_, _, rfl, ?_, ?_⟩
          · exact (((hwf.write _ _).write _ _).write _ _).write _ _
          · simp [write]


/-- The scale-up loop performs exactly `n` successful registrations and
returns one ticket per registration. -/
theorem scaleUp_ok (app rev proc env now : String) :
    ∀ (n : Nat) (st : StoreSt), StoreWF st →
      ∃ ts st2, scaleUp app rev proc env now n st = .ok (ts, st2) ∧ ts.length = n ∧
        StoreWF st2
  | 0, st, hwf => ⟨[], st, rfl, rfl, hwf⟩
  | n + 1, st, hwf => by
    obtain ⟨st1, i1, hreg, hwf1, _⟩ := registerInstance_ok hwf app rev proc env now
    obtain ⟨ts, st2, hup, hlen, hwf2⟩ := scaleUp_ok app rev proc env now n st1 hwf1
    refine ⟨i1 :: ts, st2, ?_, by simp [hlen], hwf2⟩
    unfold scaleUp
    simp only [Bind.bind, Except.bind, Pure.pure, Except.pure, hreg, hup]

/-- The scale-down loop surfaces an INVALID_STATE `Stop` failure with
the failing instance's id in the message. -/
theorem scaleDown_invalidState {st : StoreSt} {i : Instance} {rest : List Instance} {e : VErr}
    (hstop : instStop st i = .error e) (hkind : e.kind = .invalidState) :
    scaleDown st (i :: rest) =
      .error ⟨.invalidState, "instance " ++ toString i.id ++ " is not running"⟩ := by
  unfold scaleDown
  simp only [hstop]
  rw [if_pos hkind]

/-- C7: for an existing (app, rev, proc, env) with current instance
count `is.length`: a negative factor is rejected; factor equal to
current returns no tickets and leaves the store untouched; factor
greater than current registers exactly factor-current instances and
returns them as tickets; factor less than current runs `Stop` over the
first current-factor enumerated instances (`scale` is exactly the
`scaleDown` of that prefix), and an INVALID_STATE from `Stop` surfaces
as INVALID_STATE naming the instance id. -/
theorem c7_scale_behavior (st : StoreSt) (app rev proc env now : String) (factor : Int)
    (is : List Instance) (hwf : StoreWF st)
    (hva : validateInput app = .ok ()) (hvr : validateInput rev = .ok ())
    (hvp : validateInput proc = .ok ()) (hve : validateInput env = .ok ())
    (hex1 : existsAt st (revDir app rev) st.rev = true)
    (hex2 : existsAt st (procDir app proc) st.rev = true)
    (hex3 : existsAt st ["apps", app, envsPath, env] st.rev = true)
    (hen : scaleEnum st app rev proc env st.rev = .ok is) :
    (factor < 0 → scale st app rev proc env factor now =
      .error ⟨.other, "scaling factor needs to be a positive integer"⟩) ∧
    (factor = (is.length : Int) → scale st app rev proc env factor now =
      .ok ([], is.length, st)) ∧
    (factor > (is.length : Int) → ∃ ts st2,
      scale st app rev proc env factor now = .ok (ts, is.length, st2) ∧
      ts.length = (factor - (is.length : Int)).toNat) ∧
    (factor < (is.length : Int) → 0 ≤ factor →
      scale st app rev proc env factor now =
        (do
          let r ← scaleDown st (is.take (is.length - factor.toNat))
          .ok (r.1, is.length, r.2))) ∧
    (∀ st0 j rest e, instStop st0 j = .error e → e.kind = .invalidState →
      scaleDown st0 (j :: rest) =
        .error ⟨.invalidState, "instance " ++ toString j.id ++ " is not running"⟩) := by
  refine ⟨?_, ?_, ?_, ?_, fun st0 j rest e h1 h2 => scaleDown_invalidState h1 h2⟩
  · intro hneg
    unfold scale
    simp only [Bind.bind, Except.bind, Pure.pure, Except.pure, hva, hvr, hvp, hve]
    rw [if_pos hneg]
  · intro heqf
    unfold scale
    simp only [Bind.bind, Except.bind, Pure.pure, Except.pure, hva, hvr, hvp, hve]
    rw [if_neg (by omega), if_neg (by simp [hex1]), if_neg (by simp [hex2]),
      if_neg (by simp [hex3])]
    simp only [hen]
    rw [if_neg (by omega), if_neg (by omega)]
  · intro hgt
    obtain ⟨ts, st2, hup, hlen, _⟩ :=
      scaleUp_ok app rev proc env now (factor - (is.length : Int)).toNat st hwf
    refine ⟨ts, st2, ?_, hlen⟩
    unfold scale
    simp only [Bind.bind, Except.bind, Pure.pure, Except.pure, hva, hvr, hvp, hve]
    rw [if_neg (by omega), if_neg (by simp [hex1]), if_neg (by simp [hex2]),
      if_neg (by simp [hex3])]
    simp only [hen]
    rw [if_pos (by omega)]
    simp only [hup]
  · intro hlt hnn
    unfold scale
    simp only [Bind.bind, Except.bind, Pure.pure, Except.pure, hva, hvr, hvp, hve]
    rw [if_neg (by omega), if_neg (by simp [hex1]), if_neg (by simp [hex2]),
      if_neg (by simp [hex3])]
    simp only [hen]
    rw [if_neg (by omega), if_pos (by omega)]


/-- Witness for C7: an app with zero current instances scaled to factor
2 registers exactly two tickets. -/
theorem c7_scale_behavior_witness :
    ∃ ts st2,
      scale ⟨[(["apps", "a", "revs", "r1", "registered"], [⟨1, some (.str "t")⟩]),
          (["apps", "a", "procs", "web", "registered"], [⟨2, some (.str "t")⟩]),
          (["apps", "a", "envs", "prod"], [⟨3, some (.str "e")⟩])], 3, 0⟩
        "a" "r1" "web" "prod" 2 "t" =
        .ok (ts, List.length ([] : List Instance), st2) ∧
      ts.length = ((2 : Int) - ((List.length ([] : List Instance) : Nat) : Int)).toNat :=
  (c7_scale_behavior ⟨[(["apps", "a", "revs", "r1", "registered"], [⟨1, some (.str "t")⟩]),
      (["apps", "a", "procs", "web", "registered"], [⟨2, some (.str "t")⟩]),
      (["apps", "a", "envs", "prod"], [⟨3, some (.str "e")⟩])], 3, 0⟩
    "a" "r1" "web" "prod" "t" 2 [] (by decide) (by decide) (by decide) (by decide) (by decide)
    (by decide) (by decide) (by decide) (by decide)).2.2.1 (by decide)


end Visor
